import Mathlib

/-!
Verification development for the BTHome v2 decoder of this repository.

Shallow embedding of `src/BTHomeDecoder.ts` (`decodeBTHome`), `src/BTHomeSpec.ts`
(`BTHOME_SPEC`) and `src/BTHomeShellyMdDecoder.ts` (`decodeShellyManufacturerData`).

Modelling conventions:
* a Node `Buffer` is a `List Nat` of byte values;
* Node buffer read methods that throw `ERR_OUT_OF_RANGE` (`readUInt8`,
  `readUIntLE`, `readIntLE`, `readUInt16LE`, `readUInt32LE`) return
  `Except DErr _` and fail with `DErr.rangeError`;
* JS numbers produced by the generic numeric path are modelled as `ℚ`; the
  `parseFloat((raw * factor).toFixed(Math.log10(1 / factor)))` computation is
  modelled exactly over `ℚ` (`scaleRound` with `digitsOfFactor`), which agrees
  with IEEE-754 JS arithmetic for every power-of-ten factor in the spec table
  (for the single non-power-of-ten factor 0.35 the two may differ at
  half-integer ties); factor literals such as `0.01` are written `mkRat 1 100`;
* the `while` loop of the decoder is encoded with a fuel parameter; the fuel
  branch `DErr.fuelOut` is proven unreachable when the fuel bounds the number
  of remaining bytes, and the top-level entry point passes sufficient fuel;
* per-entry custom parser closures of the spec table are represented by the
  closed tag type `ParserTag` together with `runParser`, whose arms are the
  bodies of the corresponding closures in `BTHomeSpec.ts`;
* `Buffer.prototype.toString('utf8')` and `Date.prototype.toISOString` are
  modelled by executable `utf8Decode` / `isoString`.
-/

/-- Errors of the embedded decoders. `rangeError` models a Node buffer read
throwing `ERR_OUT_OF_RANGE`; `specError name` models the
`throw new Error(...)` taken when the generic decode path meets a spec entry
without a fixed byte width; `fuelOut` is an artefact of the fuel encoding of
the `while` loop, proven unreachable for sufficient fuel. -/
inductive DErr where
  | rangeError
  | specError (name : String)
  | fuelOut
deriving DecidableEq

/-- Node `buf.readUInt8(off)`: the byte at `off`, or a range error. -/
def readUInt8 (buf : List Nat) (off : Nat) : Except DErr Nat :=
  if off + 1 ≤ buf.length then .ok (buf.getD off 0) else .error .rangeError

/-- Little-endian accumulation of `n` bytes starting at `off` (LSB first). -/
def leVal (buf : List Nat) : Nat → Nat → Nat
  | _, 0 => 0
  | off, n + 1 => buf.getD off 0 + 256 * leVal buf (off + 1) n

/-- Node `buf.readUIntLE(off, n)`: unsigned little-endian read of `n` bytes
(`1 ≤ n ≤ 6`), or a range error. -/
def readUIntLE (buf : List Nat) (off n : Nat) : Except DErr Nat :=
  if 1 ≤ n ∧ n ≤ 6 ∧ off + n ≤ buf.length then .ok (leVal buf off n)
  else .error .rangeError

/-- Two's-complement reinterpretation of an `n`-byte unsigned value. -/
def toSigned (n u : Nat) : Int :=
  if u < 2 ^ (8 * n - 1) then (u : Int) else (u : Int) - 2 ^ (8 * n)

/-- Node `buf.readIntLE(off, n)`: signed little-endian read. -/
def readIntLE (buf : List Nat) (off n : Nat) : Except DErr Int :=
  (readUIntLE buf off n).map (toSigned n)

/-- Node `buf.readUInt16LE(off)`. -/
def readUInt16LE (buf : List Nat) (off : Nat) : Except DErr Nat :=
  readUIntLE buf off 2

/-- Node `buf.readUInt32LE(off)`. -/
def readUInt32LE (buf : List Nat) (off : Nat) : Except DErr Nat :=
  readUIntLE buf off 4

/-- JS `buf.slice(start, stop)` for non-negative indices: clamps, never throws. -/
def jsSlice (buf : List Nat) (start stop : Nat) : List Nat :=
  (buf.drop start).take (stop - start)

/-- Lowercase hexadecimal digit character. -/
def hexDigitChar (n : Nat) : Char :=
  if n < 10 then Char.ofNat (48 + n) else Char.ofNat (87 + n)

/-- Digit list of `n` in base 16, most significant first (empty for 0). -/
def hexDigitsAux : Nat → Nat → List Char
  | _, 0 => []
  | 0, _ + 1 => []
  | n, fuel + 1 =>
    if n = 0 then [] else hexDigitsAux (n / 16) fuel ++ [hexDigitChar (n % 16)]

/-- JS `n.toString(16)` for a non-negative integer: lowercase, no padding. -/
def jsHexNat (n : Nat) : String :=
  if n = 0 then "0" else String.mk (hexDigitsAux n n)

/-- One byte as two lowercase hex digits (as in `Buffer.toString('hex')`). -/
def byteHex (b : Nat) : String :=
  (if b < 16 then "0" else "") ++ jsHexNat b

/-- Node `buf.toString('hex')`. -/
def bufHex (l : List Nat) : String :=
  String.join (l.map byteHex)

/-- Unicode replacement character U+FFFD. -/
def replChar : Char := Char.ofNat 0xFFFD

/-- Is `b` a UTF-8 continuation byte. -/
def isCont (b : Nat) : Bool := 0x80 ≤ b && b < 0xC0

/-- UTF-8 decoding with U+FFFD replacement, modelling
`Buffer.prototype.toString('utf8')`. -/
def utf8Chars : List Nat → List Char
  | [] => []
  | b :: rest =>
    if b < 0x80 then Char.ofNat b :: utf8Chars rest
    else if b < 0xC2 then replChar :: utf8Chars rest
    else if b < 0xE0 then
      match rest with
      | c1 :: rest1 =>
        if isCont c1 then
          Char.ofNat ((b - 0xC0) * 0x40 + (c1 - 0x80)) :: utf8Chars rest1
        else replChar :: utf8Chars (c1 :: rest1)
      | [] => [replChar]
    else if b < 0xF0 then
      match rest with
      | c1 :: c2 :: rest2 =>
        if isCont c1 && isCont c2 then
          let cp := (b - 0xE0) * 0x1000 + (c1 - 0x80) * 0x40 + (c2 - 0x80)
          (if 0x800 ≤ cp && ¬ (0xD800 ≤ cp && cp < 0xE000) then Char.ofNat cp
           else replChar) :: utf8Chars rest2
        else replChar :: utf8Chars (c1 :: c2 :: rest2)
      | r => replChar :: utf8Chars r
    else if b < 0xF5 then
      match rest with
      | c1 :: c2 :: c3 :: rest3 =>
        if isCont c1 && isCont c2 && isCont c3 then
          let cp := (b - 0xF0) * 0x40000 + (c1 - 0x80) * 0x1000 +
            (c2 - 0x80) * 0x40 + (c3 - 0x80)
          (if 0x10000 ≤ cp && cp < 0x110000 then Char.ofNat cp
           else replChar) :: utf8Chars rest3
        else replChar :: utf8Chars (c1 :: c2 :: c3 :: rest3)
      | r => replChar :: utf8Chars r
    else replChar :: utf8Chars rest

/-- Node `bytes.toString('utf8')`. -/
def utf8Decode (l : List Nat) : String := String.mk (utf8Chars l)

/-- Two-digit zero-padded decimal. -/
def pad2 (n : Nat) : String := (if n < 10 then "0" else "") ++ toString n

/-- Four-digit zero-padded decimal. -/
def pad4 (n : Nat) : String :=
  (if n < 10 then "000" else if n < 100 then "00" else if n < 1000 then "0" else "")
    ++ toString n

/-- Proleptic-Gregorian date of a day count since 1970-01-01
(`(year, month, day)`, Hinnant's civil-from-days algorithm). -/
def civilFromDays (z0 : Nat) : Nat × Nat × Nat :=
  let z := z0 + 719468
  let era := z / 146097
  let doe := z % 146097
  let yoe := (doe - doe / 1460 + doe / 36524 - doe / 146096) / 365
  let y := yoe + era * 400
  let doy := doe - (365 * yoe + yoe / 4 - yoe / 100)
  let mp := (5 * doy + 2) / 153
  let d := doy - (153 * mp + 2) / 5 + 1
  if mp < 10 then (y, mp + 3, d) else (y + 1, mp - 9, d)

/-- JS `new Date(secs * 1000).toISOString()` for a `uint32` second count
(milliseconds are always `.000`). -/
def isoString (secs : Nat) : String :=
  let days := secs / 86400
  let rem := secs % 86400
  let c := civilFromDays days
  pad4 c.1 ++ "-" ++ pad2 c.2.1 ++ "-" ++ pad2 c.2.2 ++ "T" ++
    pad2 (rem / 3600) ++ ":" ++ pad2 (rem % 3600 / 60) ++ ":" ++
    pad2 (rem % 60) ++ ".000Z"

/-- Decoded reading values: numbers, strings, and the one structured object
(`dimmerEvent`'s `{ event, steps }`). -/
inductive BTValue where
  | num (q : ℚ)
  | str (s : String)
  | dimmer (event : String) (steps : Nat)
deriving DecidableEq

/-- Tags for the custom parser closures stored in `BTHOME_SPEC`. -/
inductive ParserTag where
  | button
  | dimmerEvt
  | text
  | raw
  | timestamp
  | fw4
  | fw3
deriving DecidableEq

/-- The `EVENT_MAP` of the `0x3a` button parser (with the `?? 'unknown'`
fallback applied by the parser). -/
def buttonEventName (code : Nat) : String :=
  if code = 0x00 then "none"
  else if code = 0x01 then "single_press"
  else if code = 0x02 then "double_press"
  else if code = 0x03 then "triple_press"
  else if code = 0x04 then "long_press"
  else if code = 0x05 then "long_double_press"
  else if code = 0x06 then "long_triple_press"
  else if code = 0x80 then "hold_press"
  else if code = 0xfe then "hold_press"
  else "unknown"

/-- The event-name map of the `0x3c` dimmer parser (with the
`|| 'evt0x...'` fallback applied by the parser). -/
def dimmerEventName (evt : Nat) : String :=
  if evt = 0x00 then "none"
  else if evt = 0x01 then "rotateLeft"
  else if evt = 0x02 then "rotateRight"
  else "evt0x" ++ jsHexNat evt

/-- Rendering of one destructured byte of a firmware-version slice:
a present byte prints in decimal, a missing one prints as JS `undefined`. -/
def fwComponent (bytes : List Nat) (i : Nat) : String :=
  match bytes.get? i with
  | some b => toString b
  | none => "undefined"

/-- The custom parser closures of `BTHomeSpec.ts`, dispatched by tag.
Each arm is the body of the corresponding `parser(buf, off)` closure. -/
def runParser (t : ParserTag) (buf : List Nat) (off : Nat) : Except DErr BTValue :=
  match t with
  | .button =>
    -- const code = buf.readUInt8(off); return EVENT_MAP[code] ?? 'unknown';
    (readUInt8 buf off).map (fun code => .str (buttonEventName code))
  | .dimmerEvt =>
    -- const evt = buf.readUInt8(off); const steps = buf.readUInt8(off + 1); ...
    match readUInt8 buf off with
    | .error e => .error e
    | .ok evt =>
      match readUInt8 buf (off + 1) with
      | .error e => .error e
      | .ok steps => .ok (.dimmer (dimmerEventName evt) steps)
  | .text =>
    -- return buf.slice(off + 1, off + 1 + buf[off]).toString('utf8');
    -- (when buf[off] is undefined the end index is NaN, giving an empty slice)
    match buf.get? off with
    | some len => .ok (.str (utf8Decode (jsSlice buf (off + 1) (off + 1 + len))))
    | none => .ok (.str "")
  | .raw =>
    -- return buf.slice(off + 1, off + 1 + buf[off]).toString('hex');
    match buf.get? off with
    | some len => .ok (.str (bufHex (jsSlice buf (off + 1) (off + 1 + len))))
    | none => .ok (.str "")
  | .timestamp =>
    -- return new Date(buf.readUInt32LE(off) * 1000).toISOString();
    (readUInt32LE buf off).map (fun secs => .str (isoString secs))
  | .fw4 =>
    -- const [rc, patch, minor, major] = buf.slice(off, off + 4);
    -- return `major.minor.patch.rc`;
    let s := jsSlice buf off (off + 4)
    .ok (.str (fwComponent s 3 ++ "." ++ fwComponent s 2 ++ "." ++
      fwComponent s 1 ++ "." ++ fwComponent s 0))
  | .fw3 =>
    -- const [minor, patch, major] = buf.slice(off, off + 3);
    -- return `major.minor.patch`;
    let s := jsSlice buf off (off + 3)
    .ok (.str (fwComponent s 2 ++ "." ++ fwComponent s 0 ++ "." ++
      fwComponent s 1))

/-- A spec-table entry (`BTHomeSpecEntry` of `BTHomeSpec.ts`): field name,
fixed byte width (`none` for length-prefixed fields), signedness, scaling
factor, and optional custom parser. -/
structure BTHomeSpecEntry where
  name : String
  bytes : Option Nat
  signed : Bool := false
  factor : Option ℚ := none
  parser : Option ParserTag := none
deriving DecidableEq

/-- The full BTHome v2 spec table (`BTHOME_SPEC` of `BTHomeSpec.ts`),
keyed by the one-byte object id; a JS object literal is a key-value
collection, embedded here as an association list, split into chunks only to
keep elaboration cheap.  Ids absent from the table look up to `none`. -/
def specChunk0 : List (Nat × BTHomeSpecEntry) := [
  (0x00, { name := "packetId", bytes := some 1, signed := false, factor := some 1 }),
  (0x01, { name := "battery", bytes := some 1, signed := false, factor := some 1 }),
  (0x02, { name := "temperature", bytes := some 2, signed := true, factor := some (mkRat 1 100) }),
  (0x03, { name := "humidity", bytes := some 2, signed := false, factor := some (mkRat 1 100) }),
  (0x04, { name := "pressure", bytes := some 3, signed := false, factor := some (mkRat 1 100) }),
  (0x05, { name := "illuminance", bytes := some 3, signed := false, factor := some (mkRat 1 100) }),
  (0x06, { name := "massKilograms", bytes := some 2, signed := false, factor := some (mkRat 1 100) }),
  (0x07, { name := "massPounds", bytes := some 2, signed := false, factor := some (mkRat 1 100) }),
  (0x08, { name := "dewPoint", bytes := some 2, signed := true, factor := some (mkRat 1 100) }),
  (0x09, { name := "countSmall", bytes := some 1, signed := false, factor := some 1 }),
  (0x0a, { name := "energy_kWh", bytes := some 3, signed := false, factor := some (mkRat 1 1000) }),
  (0x0b, { name := "power_W", bytes := some 3, signed := false, factor := some (mkRat 1 100) })]

def specChunk1 : List (Nat × BTHomeSpecEntry) := [
  (0x0c, { name := "voltage_V", bytes := some 2, signed := false, factor := some (mkRat 1 1000) }),
  (0x0d, { name := "pm2_5_ugm3", bytes := some 2, signed := false, factor := some 1 }),
  (0x0e, { name := "pm10_ugm3", bytes := some 2, signed := false, factor := some 1 }),
  (0x13, { name := "tvoc_ugm3", bytes := some 2, signed := false, factor := some 1 }),
  (0x14, { name := "moisture", bytes := some 2, signed := false, factor := some (mkRat 1 100) }),
  (0x2e, { name := "humidity", bytes := some 1, signed := false, factor := some 1 }),
  (0x2f, { name := "moisture", bytes := some 1, signed := false, factor := some 1 }),
  (0x40, { name := "distance_mm", bytes := some 2, signed := false, factor := some 1 }),
  (0x41, { name := "distance_m", bytes := some 2, signed := false, factor := some (mkRat 1 10) }),
  (0x42, { name := "duration_s", bytes := some 3, signed := false, factor := some (mkRat 1 1000) }),
  (0x43, { name := "current_A", bytes := some 2, signed := false, factor := some (mkRat 1 1000) }),
  (0x44, { name := "speed_ms", bytes := some 2, signed := false, factor := some (mkRat 1 100) })]

def specChunk2 : List (Nat × BTHomeSpecEntry) := [
  (0x45, { name := "temperature", bytes := some 2, signed := true, factor := some (mkRat 1 10) }),
  (0x46, { name := "uvIndex", bytes := some 1, signed := false, factor := some (mkRat 1 10) }),
  (0x47, { name := "volume_L", bytes := some 2, signed := false, factor := some (mkRat 1 10) }),
  (0x48, { name := "volume_mL", bytes := some 2, signed := false, factor := some 1 }),
  (0x49, { name := "flowRate_m3ph", bytes := some 2, signed := false, factor := some (mkRat 1 1000) }),
  (0x4a, { name := "voltage_alt_V", bytes := some 2, signed := false, factor := some (mkRat 1 10) }),
  (0x4b, { name := "gas_m3", bytes := some 3, signed := false, factor := some (mkRat 1 1000) }),
  (0x4c, { name := "gas_alt_m3", bytes := some 4, signed := false, factor := some (mkRat 1 1000) }),
  (0x4d, { name := "energy_alt_kWh", bytes := some 4, signed := false, factor := some (mkRat 1 1000) }),
  (0x4e, { name := "volume_alt_L", bytes := some 4, signed := false, factor := some (mkRat 1 1000) }),
  (0x4f, { name := "water_L", bytes := some 4, signed := false, factor := some (mkRat 1 1000) }),
  (0x52, { name := "gyroscope_dps", bytes := some 2, signed := false, factor := some (mkRat 1 1000) })]

def specChunk3 : List (Nat × BTHomeSpecEntry) := [
  (0x53, { name := "text", bytes := none, parser := some .text }),
  (0x54, { name := "raw", bytes := none, parser := some .raw }),
  (0x55, { name := "volumeStorage_L", bytes := some 4, signed := false, factor := some (mkRat 1 1000) }),
  (0x57, { name := "temperature", bytes := some 1, signed := true, factor := some 1 }),
  (0x58, { name := "temperature", bytes := some 1, signed := true, factor := some (mkRat 35 100) }),
  (0x59, { name := "count8", bytes := some 1, signed := true, factor := some 1 }),
  (0x5a, { name := "count16", bytes := some 2, signed := true, factor := some 1 }),
  (0x5b, { name := "count32", bytes := some 4, signed := true, factor := some 1 }),
  (0x5c, { name := "power_alt_W", bytes := some 4, signed := true, factor := some (mkRat 1 100) }),
  (0x5d, { name := "current_alt_A", bytes := some 2, signed := true, factor := some (mkRat 1 1000) }),
  (0x5e, { name := "direction_deg", bytes := some 2, signed := false, factor := some (mkRat 1 100) }),
  (0x5f, { name := "precipitation_mm", bytes := some 2, signed := false, factor := some 1 })]

def specChunk4 : List (Nat × BTHomeSpecEntry) := [
  (0x0f, { name := "genericBoolean", bytes := some 1, signed := false, factor := some 1 }),
  (0x10, { name := "powerState", bytes := some 1, signed := false, factor := some 1 }),
  (0x11, { name := "openingState", bytes := some 1, signed := false, factor := some 1 }),
  (0x15, { name := "batteryState", bytes := some 1, signed := false, factor := some 1 }),
  (0x16, { name := "batteryChargingState", bytes := some 1, signed := false, factor := some 1 }),
  (0x17, { name := "carbonMonoxideState", bytes := some 1, signed := false, factor := some 1 }),
  (0x18, { name := "coldState", bytes := some 1, signed := false, factor := some 1 }),
  (0x19, { name := "connectivityState", bytes := some 1, signed := false, factor := some 1 }),
  (0x1a, { name := "doorState", bytes := some 1, signed := false, factor := some 1 }),
  (0x1b, { name := "garageDoorState", bytes := some 1, signed := false, factor := some 1 }),
  (0x1c, { name := "gasState", bytes := some 1, signed := false, factor := some 1 }),
  (0x1d, { name := "heatState", bytes := some 1, signed := false, factor := some 1 })]

def specChunk5 : List (Nat × BTHomeSpecEntry) := [
  (0x1e, { name := "lightState", bytes := some 1, signed := false, factor := some 1 }),
  (0x1f, { name := "lockState", bytes := some 1, signed := false, factor := some 1 }),
  (0x20, { name := "moistureState", bytes := some 1, signed := false, factor := some 1 }),
  (0x21, { name := "motionState", bytes := some 1, signed := false, factor := some 1 }),
  (0x22, { name := "movingState", bytes := some 1, signed := false, factor := some 1 }),
  (0x23, { name := "occupancyState", bytes := some 1, signed := false, factor := some 1 }),
  (0x24, { name := "plugState", bytes := some 1, signed := false, factor := some 1 }),
  (0x25, { name := "presenceState", bytes := some 1, signed := false, factor := some 1 }),
  (0x26, { name := "problemState", bytes := some 1, signed := false, factor := some 1 }),
  (0x27, { name := "runningState", bytes := some 1, signed := false, factor := some 1 }),
  (0x28, { name := "safetyState", bytes := some 1, signed := false, factor := some 1 }),
  (0x29, { name := "smokeState", bytes := some 1, signed := false, factor := some 1 })]

def specChunk6 : List (Nat × BTHomeSpecEntry) := [
  (0x2a, { name := "soundState", bytes := some 1, signed := false, factor := some 1 }),
  (0x2b, { name := "tamperState", bytes := some 1, signed := false, factor := some 1 }),
  (0x2c, { name := "vibrationState", bytes := some 1, signed := false, factor := some 1 }),
  (0x2d, { name := "windowState", bytes := some 1, signed := false, factor := some 1 }),
  (0x3a, { name := "button", bytes := some 1, signed := false, factor := some 1, parser := some .button }),
  (0x3c, { name := "dimmerEvent", bytes := some 2, signed := false, factor := some 1, parser := some .dimmerEvt }),
  (0x3f, { name := "rotation_deg", bytes := some 2, signed := true, factor := some (mkRat 1 10) }),
  (0x50, { name := "timestamp", bytes := some 4, signed := false, factor := some 1, parser := some .timestamp }),
  (0xf0, { name := "deviceTypeId", bytes := some 2, signed := false, factor := some 1 }),
  (0xf1, { name := "firmwareVersion", bytes := some 4, signed := false, factor := some 1, parser := some .fw4 }),
  (0xf2, { name := "firmwareVersionShort", bytes := some 3, signed := false, factor := some 1, parser := some .fw3 })]

/-- The concatenated spec table, in the entry order of `BTHomeSpec.ts`. -/
def BTHOME_SPEC_LIST : List (Nat × BTHomeSpecEntry) :=
  specChunk0 ++ specChunk1 ++ specChunk2 ++ specChunk3 ++ specChunk4 ++ specChunk5 ++ specChunk6

/-- Table lookup `BTHOME_SPEC[id]`. -/
def BTHOME_SPEC (id : Nat) : Option BTHomeSpecEntry :=
  BTHOME_SPEC_LIST.lookup id

/-- Decimal digit count of `n` minus one: the value of
`Math.trunc(Math.log10(x))` for a real `x ≥ 1` with `⌊x⌋ = n` (the implicit
truncation `toFixed` applies to its fraction-digits argument). -/
def log10Trunc (n : Nat) : Nat :=
  (Nat.toDigits 10 n).length - 1

/-- The decimal-precision argument `Math.log10(1 / factor)` of the generic
numeric path, as truncated by `toFixed`: computed as `⌊1 / f⌋` at the integer
level (`f.den / f.num`, Euclidean division by a positive numerator) so that it
kernel-evaluates. -/
def digitsOfFactor (f : ℚ) : Nat :=
  log10Trunc ((f.den : Int) / f.num).toNat

/-- Models `parseFloat((raw * factor).toFixed(d))` exactly over `ℚ`: round
`raw * factor` to `d` decimal places, ties toward positive infinity
(ECMA-262 `toFixed` picks the larger candidate).  Computed at the integer
level so that it kernel-evaluates; `scaleRound_eq_floor` below gives the
mathematical characterization. -/
def scaleRound (raw : Int) (f : ℚ) (d : Nat) : ℚ :=
  Rat.divInt ((2 * raw * f.num * 10 ^ d + (f.den : Int)) / (2 * (f.den : Int)))
    (10 ^ d)

/-- JS object lookup on an insertion-ordered association list
(`readings[k]`, `undefined` becoming `none`). -/
def jsGet (m : List (String × BTValue)) (k : String) : Option BTValue :=
  (m.find? (fun p => p.1 == k)).map (fun p => p.2)

/-- JS object key-presence test (`k in readings`). -/
def jsHas (m : List (String × BTValue)) (k : String) : Bool :=
  m.any (fun p => p.1 == k)

/-- JS object assignment (`readings[k] = v`): updates an existing key in
place, otherwise appends at the end (JS string-key insertion order). -/
def jsSet (m : List (String × BTValue)) (k : String) (v : BTValue) :
    List (String × BTValue) :=
  if jsHas m k then m.map (fun p => if p.1 == k then (k, v) else p)
  else m ++ [(k, v)]

/-- JS `delete readings[k]`. -/
def jsDel (m : List (String × BTValue)) (k : String) : List (String × BTValue) :=
  m.filter (fun p => !(p.1 == k))

/-- Mutable state of the decode loop of `decodeBTHome`: the `readings`
object, the `unknown` array, and the `ids` occurrence list. -/
structure DecodeState where
  readings : List (String × BTValue)
  unknown : List String
  ids : List Nat
deriving DecidableEq

/-- Lines 102–114 of `BTHomeDecoder.ts`: push `id` onto `ids`, compute the
occurrence count, disambiguate the key with `:count` when the id repeats,
retroactively renaming an existing `name` entry to `name:1`, then store the
value. -/
def record (st : DecodeState) (id : Nat) (name : String) (value : BTValue) :
    DecodeState :=
  -- const ids = [...st.ids, id]; const count = ids.filter(i => i === id).length
  if (st.ids ++ [id]).count id > 1 then
    { st with
      readings :=
        jsSet
          (match jsGet st.readings name with
           | some old => jsDel (jsSet st.readings (name ++ ":1") old) name
           | none => st.readings)
          (name ++ ":" ++ toString ((st.ids ++ [id]).count id)) value,
      ids := st.ids ++ [id] }
  else
    { st with readings := jsSet st.readings name value, ids := st.ids ++ [id] }

/-- The hex-tagged entry pushed onto `unknown` for an unrecognized id at
position `idPos`: `0x<id hex> → 0x<hex of the id byte and everything after>`. -/
def unknownEntry (buf : List Nat) (idPos : Nat) : String :=
  "0x" ++ jsHexNat (buf.getD idPos 0) ++ " → 0x" ++ bufHex (buf.drop idPos)

/-- One field body of the decode loop (lines 73–100 of `BTHomeDecoder.ts`):
given the data offset `off` (just past the id byte) and the field's spec
entry, produce the decoded value and the next offset.  A custom parser takes
precedence and the offset advances by `spec.bytes`, or by `1 +` the length
prefix; the generic path requires a fixed width, reads a little-endian
integer (signed per the descriptor), applies the factor and rounds to the
decimal precision implied by the factor. -/
def stepValue (buf : List Nat) (off : Nat) (spec : BTHomeSpecEntry) :
    Except DErr (BTValue × Nat) :=
  match spec.parser with
  | some t =>
    match runParser t buf off with
    | .error e => .error e
    | .ok v =>
      match spec.bytes with
      | some n => .ok (v, off + n)
      | none =>
        match readUInt8 buf off with
        | .error e => .error e
        | .ok len => .ok (v, off + 1 + len)
  | none =>
    match spec.bytes with
    | none => .error (.specError spec.name)
    | some n =>
      -- const factor = spec.factor ?? 1
      match (if spec.signed then readIntLE buf off n
             else (readUIntLE buf off n).map Int.ofNat) with
      | .error e => .error e
      | .ok raw =>
        .ok (.num (scaleRound raw (spec.factor.getD 1)
          (digitsOfFactor (spec.factor.getD 1))), off + n)

/-- The decode loop of `decodeBTHome` (lines 62–115), fuel-indexed: while
`offset < buf.length`, read an id byte, push it onto `ids`, look it up in
`BTHOME_SPEC`; an unknown id dumps the remainder into `unknown` and stops;
otherwise decode one field and store it through `record`. -/
def decodeFields : Nat → List Nat → Nat → DecodeState → Except DErr DecodeState
  | 0, buf, offset, st =>
    if offset < buf.length then .error .fuelOut else .ok st
  | fuel + 1, buf, offset, st =>
    if offset < buf.length then
      -- const id = buf.readUInt8(offset++)  (in range by the loop guard)
      match BTHOME_SPEC (buf.getD offset 0) with
      | none =>
        .ok { st with
          ids := st.ids ++ [buf.getD offset 0],
          unknown := st.unknown ++ [unknownEntry buf offset] }
      | some spec =>
        match stepValue buf (offset + 1) spec with
        | .error e => .error e
        | .ok (value, next) =>
          decodeFields fuel buf next (record st (buf.getD offset 0) spec.name value)
    else .ok st

/-- The decode result of `decodeBTHome` (`DecodedBTHome` of
`BTHomeDecoder.ts`). -/
structure DecodedBTHome where
  version : Nat
  encrypted : Bool
  trigger : Bool
  readings : List (String × BTValue)
  unknown : List String
deriving DecidableEq

/-- `decodeBTHome(buf)` of `BTHomeDecoder.ts`: read the header byte
(version = bits 5–7, encrypted = bit 0, trigger = bit 2), then run the
decode loop from offset 1. -/
def decodeBTHome (buf : List Nat) : Except DErr DecodedBTHome :=
  match readUInt8 buf 0 with
  | .error e => .error e
  | .ok info =>
    match decodeFields buf.length buf 1 ⟨[], [], []⟩ with
    | .error e => .error e
    | .ok st =>
      .ok {
        version := (info >>> 5) &&& 7,
        encrypted := (info &&& 1) != 0,
        trigger := (info &&& 4) != 0,
        readings := st.readings,
        unknown := st.unknown }

/-- `SHELLY_MODEL_LONG_NAMES` of `BTHomeShellyMdDecoder.ts` /
`getShellyBluLongName(id)`. -/
def getShellyBluLongName (id : Nat) : Option String :=
  match id with
  | 0x0001 => some "Shelly BLU Button1"
  | 0x0002 => some "Shelly BLU DoorWindow"
  | 0x0003 => some "Shelly BLU HT"
  | 0x0005 => some "Shelly BLU Motion"
  | 0x0006 => some "Shelly BLU Wall Switch 4"
  | 0x0007 => some "Shelly BLU RC Button 4"
  | 0x0008 => some "Shelly BLU TRV"
  | _ => none

/-- `SHELLY_MODEL_SHORT_NAMES` of `BTHomeShellyMdDecoder.ts` /
`getShellyBluShortName(id)`. -/
def getShellyBluShortName (id : Nat) : Option String :=
  match id with
  | 0x0001 => some "SBBT-002C"
  | 0x0002 => some "SBDW-002C"
  | 0x0003 => some "SBHT-003C"
  | 0x0005 => some "SBMO-003Z"
  | 0x0006 => some "SBBT-004CEU"
  | 0x0007 => some "SBBT-004CUS"
  | 0x0008 => some "SBTR-001AEU"
  | _ => none

/-- The `ShellyFlags` interface: five named booleans from bits 0–4 of the
flags word. -/
structure ShellyFlags where
  discoverable : Bool
  authEnabled : Bool
  rpcEnabled : Bool
  buzzerEnabled : Bool
  inPairingMode : Bool
deriving DecidableEq

/-- The `ShellyManufacturerData` interface; optional TS fields are `Option`. -/
structure ShellyManufacturerData where
  companyId : Nat
  flags : Option ShellyFlags := none
  modelId : Option Nat := none
  modelIdShortName : Option String := none
  modelIdLongName : Option String := none
  mac : Option String := none
deriving DecidableEq

/-- The input of `decodeShellyManufacturerData`: a `Buffer` or a hex string. -/
inductive ShellyInput where
  | buffer (bytes : List Nat)
  | hexString (s : String)

/-- The JS `input.length` property: byte count for a buffer, character count
for a string. -/
def inputLength : ShellyInput → Nat
  | .buffer bytes => bytes.length
  | .hexString s => s.length

/-- JS whitespace as matched by the `\s` regex class (ASCII portion). -/
def isJsWs (c : Char) : Bool :=
  c = ' ' || c = '\t' || c = '\n' || c = '\r' ||
    c = Char.ofNat 11 || c = Char.ofNat 12

/-- Value of a hexadecimal digit character, if any. -/
def hexVal (c : Char) : Option Nat :=
  if '0' ≤ c ∧ c ≤ '9' then some (c.toNat - 48)
  else if 'a' ≤ c ∧ c ≤ 'f' then some (c.toNat - 87)
  else if 'A' ≤ c ∧ c ≤ 'F' then some (c.toNat - 55)
  else none

/-- Node `Buffer.from(str, 'hex')`: consume hex-digit pairs, stopping at the
first invalid pair (a dangling final character is dropped). -/
def hexPairs : List Char → List Nat
  | c1 :: c2 :: rest =>
    match hexVal c1, hexVal c2 with
    | some h, some l => (16 * h + l) :: hexPairs rest
    | _, _ => []
  | _ => []

/-- The byte content of a Shelly input:
`Buffer.isBuffer(input) ? input : Buffer.from(input.replace(/\s+/g, ''), 'hex')`. -/
def shellyBytes : ShellyInput → List Nat
  | .buffer bytes => bytes
  | .hexString s => hexPairs (s.data.filter (fun c => !isJsWs c))

/-- The TLV block loop of `decodeShellyManufacturerData` (lines 105–146),
fuel-indexed: while `offset < buf.length`, read a block-type byte; type
`0x01` reads a 2-byte LE flag word, type `0x0b` a 2-byte LE model id with
the two name lookups, type `0x0a` six MAC bytes rendered as colon-separated
hex; any other type stops parsing (the code jumps `offset` to the end). -/
def shellyLoop : Nat → List Nat → Nat → ShellyManufacturerData →
    Except DErr ShellyManufacturerData
  | 0, buf, offset, r =>
    if offset < buf.length then .error .fuelOut else .ok r
  | fuel + 1, buf, offset, r =>
    if offset < buf.length then
      let blockType := buf.getD offset 0
      if blockType = 0x01 then
        match readUInt16LE buf (offset + 1) with
        | .error e => .error e
        | .ok flagsRaw =>
          shellyLoop fuel buf (offset + 3)
            { r with
              flags := some {
                discoverable := flagsRaw &&& 1 != 0,
                authEnabled := flagsRaw &&& 2 != 0,
                rpcEnabled := flagsRaw &&& 4 != 0,
                buzzerEnabled := flagsRaw &&& 8 != 0,
                inPairingMode := flagsRaw &&& 16 != 0 } }
      else if blockType = 0x0b then
        match readUInt16LE buf (offset + 1) with
        | .error e => .error e
        | .ok modelId =>
          shellyLoop fuel buf (offset + 3)
            { r with
              modelId := some modelId,
              modelIdShortName := getShellyBluShortName modelId,
              modelIdLongName := getShellyBluLongName modelId }
      else if blockType = 0x0a then
        let macBytes := jsSlice buf (offset + 1) (offset + 7)
        shellyLoop fuel buf (offset + 7)
          { r with
            mac := if macBytes.isEmpty then none
              else some (String.intercalate ":" (macBytes.map byteHex)) }
      else
        -- unknown block: the code sets offset = buf.length, ending the loop
        .ok r
    else .ok r

/-- `decodeShellyManufacturerData(input)` of `BTHomeShellyMdDecoder.ts`:
`null` (here `none`) when `input.length < 10` or when the first two bytes
(little-endian `uint16`) are not the Allterco company id `0x0BA9`; otherwise
the accumulated TLV fields. -/
def decodeShellyManufacturerData (input : ShellyInput) :
    Except DErr (Option ShellyManufacturerData) :=
  if inputLength input < 10 then .ok none
  else
    -- const buf = Buffer.isBuffer(input) ? input : Buffer.from(..., 'hex')
    match readUInt16LE (shellyBytes input) 0 with
    | .error e => .error e
    | .ok companyId =>
      if companyId ≠ 0x0ba9 then .ok none
      else
        match shellyLoop (shellyBytes input).length (shellyBytes input) 2
            { companyId := companyId } with
        | .error e => .error e
        | .ok r => .ok (some r)


instance {ε α : Type} [DecidableEq ε] [DecidableEq α] : DecidableEq (Except ε α) :=
  fun a b =>
  match a, b with
  | .ok x, .ok y => if h : x = y then .isTrue (by rw [h]) else .isFalse (by simp [h])
  | .error e, .error f => if h : e = f then .isTrue (by rw [h]) else .isFalse (by simp [h])
  | .ok _, .error _ => .isFalse (by simp)
  | .error _, .ok _ => .isFalse (by simp)

/-- One well-formed field of a BTHome payload: an object id and the bytes
the decoder consumes for it. -/
structure Chunk where
  id : Nat
  payload : List Nat
deriving DecidableEq

/-- Byte encoding of one field: id byte followed by its payload. -/
def encChunk (f : Chunk) : List Nat := f.id :: f.payload

/-- Byte encoding of a field sequence. -/
def encFields : List Chunk → List Nat
  | [] => []
  | f :: fs => encChunk f ++ encFields fs

/-- Consistency of a table entry's parser tag with its declared width: each
custom parser reads exactly the declared fixed width (or is
length-prefixed). -/
def parserBytesOk (s : BTHomeSpecEntry) : Bool :=
  match s.parser with
  | none => true
  | some .button => s.bytes == some 1
  | some .dimmerEvt => s.bytes == some 2
  | some .text => s.bytes == none
  | some .raw => s.bytes == none
  | some .timestamp => s.bytes == some 4
  | some .fw4 => s.bytes == some 4
  | some .fw3 => s.bytes == some 3

/-- Sequential application of `record` for a list of decoded fields, each
paired with its spec entry and decoded value. -/
def recordAll (st : DecodeState) :
    List (Chunk × BTHomeSpecEntry × BTValue) → DecodeState
  | [] => st
  | t :: rest => recordAll (record st t.1.id t.2.1.name t.2.2) rest

/-- A key contains no colon, so the `name:count` disambiguation scheme can
never collide with it. -/
def colonFree (s : String) : Bool := decide (':' ∉ s.data)

/-- Boolean well-formedness of a spec-table entry: a parserless entry
declares a fixed byte width in the range Node's `readUIntLE` accepts. -/
def entryOk (s : BTHomeSpecEntry) : Bool :=
  match s.parser, s.bytes with
  | none, some n => decide (1 ≤ n) && decide (n ≤ 6)
  | none, none => false
  | some _, _ => true

theorem lookup_mem {α β : Type} [BEq α] [LawfulBEq α] {l : List (α × β)} {a : α} {b : β}
    (h : l.lookup a = some b) : (a, b) ∈ l := by
  induction l with
  | nil => simp [List.lookup] at h
  | cons p rest ih =>
    rw [List.lookup] at h
    by_cases hk : a == p.1
    · rw [hk] at h
      simp only [Option.some.injEq] at h
      subst h
      have : a = p.1 := eq_of_beq hk
      subst this
      exact List.mem_cons_self _ _
    · rw [Bool.not_eq_true] at hk
      rw [hk] at h
      exact List.mem_cons_of_mem _ (ih h)

/-- Every entry of the shipped spec table is well formed: the generic decode
path always finds a fixed byte width between 1 and 6. -/
theorem entryOk_all : ∀ p ∈ BTHOME_SPEC_LIST, entryOk p.2 = true := by decide

theorem spec_bytes_of_parser_none {id : Nat} {s : BTHomeSpecEntry}
    (h : BTHOME_SPEC id = some s) (hp : s.parser = none) :
    ∃ n, s.bytes = some n ∧ 1 ≤ n ∧ n ≤ 6 := by
  have hmem : (id, s) ∈ BTHOME_SPEC_LIST := lookup_mem h
  have hok := entryOk_all (id, s) hmem
  unfold entryOk at hok
  rw [hp] at hok
  cases hb : s.bytes with
  | none => rw [hb] at hok; simp at hok
  | some n =>
    rw [hb] at hok
    simp only [Bool.and_eq_true, decide_eq_true_eq] at hok
    exact ⟨n, rfl, hok.1, hok.2⟩

theorem readUInt8_err {buf : List Nat} {off : Nat} {e : DErr}
    (h : readUInt8 buf off = .error e) : e = .rangeError := by
  unfold readUInt8 at h
  split at h
  · simp at h
  · injection h with h2
    exact h2.symm

theorem readUIntLE_err {buf : List Nat} {off n : Nat} {e : DErr}
    (h : readUIntLE buf off n = .error e) : e = .rangeError := by
  unfold readUIntLE at h
  split at h
  · simp at h
  · injection h with h2
    exact h2.symm

theorem readIntLE_err {buf : List Nat} {off n : Nat} {e : DErr}
    (h : readIntLE buf off n = .error e) : e = .rangeError := by
  unfold readIntLE at h
  cases hu : readUIntLE buf off n with
  | ok v => rw [hu] at h; simp [Except.map] at h
  | error f =>
    rw [hu] at h
    simp only [Except.map] at h
    injection h with h2
    subst h2
    exact readUIntLE_err hu

theorem runParser_err {t : ParserTag} {buf : List Nat} {off : Nat} {e : DErr}
    (h : runParser t buf off = .error e) : e = .rangeError := by
  cases t <;> unfold runParser at h
  case button =>
    cases hu : readUInt8 buf off with
    | ok v => rw [hu] at h; simp [Except.map] at h
    | error f =>
      rw [hu] at h; simp only [Except.map] at h
      injection h with h2; subst h2; exact readUInt8_err hu
  case dimmerEvt =>
    cases hu : readUInt8 buf off with
    | ok v =>
      rw [hu] at h
      cases hv : readUInt8 buf (off + 1) with
      | ok w => rw [hv] at h; simp at h
      | error f =>
        rw [hv] at h; injection h with h2; subst h2; exact readUInt8_err hv
    | error f =>
      rw [hu] at h; injection h with h2; subst h2; exact readUInt8_err hu
  case text =>
    cases hg : buf.get? off with
    | some l => rw [hg] at h; simp at h
    | none => rw [hg] at h; simp at h
  case raw =>
    cases hg : buf.get? off with
    | some l => rw [hg] at h; simp at h
    | none => rw [hg] at h; simp at h
  case timestamp =>
    cases hu : readUInt32LE buf off with
    | ok v => rw [hu] at h; simp [Except.map] at h
    | error f =>
      rw [hu] at h; simp only [Except.map] at h
      injection h with h2; subst h2
      exact readUIntLE_err hu
  case fw4 => simp at h
  case fw3 => simp at h

theorem entryOk_of_lookup {id : Nat} {s : BTHomeSpecEntry}
    (h : BTHOME_SPEC id = some s) : entryOk s = true :=
  entryOk_all (id, s) (lookup_mem h)

theorem stepValue_err {buf : List Nat} {off : Nat} {spec : BTHomeSpecEntry} {e : DErr}
    (hok : entryOk spec = true) (h : stepValue buf off spec = .error e) :
    e = .rangeError := by
  unfold stepValue at h
  split at h
  next t ht =>
    split at h
    next f hf =>
      injection h with h2
      subst h2
      exact runParser_err hf
    next v hv =>
      split at h
      next n hn => simp at h
      next hn =>
        split at h
        next f hf =>
          injection h with h2
          subst h2
          exact readUInt8_err hf
        next len hl => simp at h
  next hp =>
    split at h
    next hb =>
      unfold entryOk at hok
      rw [hp, hb] at hok
      simp at hok
    next n hn =>
      split at h
      next f hf =>
        injection h with h2
        subst h2
        by_cases hs : spec.signed
        · rw [if_pos hs] at hf
          exact readIntLE_err hf
        · rw [if_neg hs] at hf
          cases hu : readUIntLE buf off n with
          | ok w => rw [hu] at hf; simp [Except.map] at hf
          | error g =>
            rw [hu] at hf
            simp only [Except.map] at hf
            injection hf with h3
            subst h3
            exact readUIntLE_err hu
      next raw hraw => simp at h

theorem stepValue_next {buf : List Nat} {off : Nat} {spec : BTHomeSpecEntry}
    {v : BTValue} {next : Nat} (h : stepValue buf off spec = .ok (v, next)) :
    off ≤ next := by
  unfold stepValue at h
  split at h
  next t ht =>
    split at h
    next f hf => simp at h
    next w hw =>
      split at h
      next n hn =>
        injection h with h2
        have h3 : off + n = next := congrArg Prod.snd h2
        omega
      next hn =>
        split at h
        next f hf => simp at h
        next len hl =>
          injection h with h2
          have h3 : off + 1 + len = next := congrArg Prod.snd h2
          omega
  next hp =>
    split at h
    next hb => simp at h
    next n hn =>
      split at h
      next f hf => simp at h
      next raw hraw =>
        injection h with h2
        have h3 : off + n = next := congrArg Prod.snd h2
        omega

theorem decodeFields_err : ∀ (fuel : Nat) (buf : List Nat) (offset : Nat)
    (st : DecodeState) (e : DErr), buf.length - offset ≤ fuel →
    decodeFields fuel buf offset st = .error e → e = .rangeError := by
  intro fuel
  induction fuel with
  | zero =>
    intro buf offset st e hle h
    rw [decodeFields] at h
    split at h
    · omega
    · simp at h
  | succ fuel ih =>
    intro buf offset st e hle h
    rw [decodeFields] at h
    split at h
    case isTrue hoff =>
      split at h
      next hspec => simp at h
      next spec hspec =>
        split at h
        next f hf =>
          injection h with h2
          subst h2
          exact stepValue_err (entryOk_of_lookup hspec) hf
        next value nxt hsv =>
          have hnext : offset + 1 ≤ nxt := stepValue_next hsv
          exact ih buf nxt _ e (by omega) h
    case isFalse hoff => simp at h

/-- C10: `decodeBTHome` applied to an empty buffer throws (the stated
1-byte minimum precondition is not checked, and the header read
`buf.readUInt8(0)` fails with a range error); under the precondition that
the buffer holds at least one byte the header read itself cannot fail. -/
theorem c10_empty_buffer_throws :
    decodeBTHome [] = .error .rangeError ∧
    (∀ buf : List Nat, 1 ≤ buf.length → readUInt8 buf 0 = .ok (buf.getD 0 0)) := by
  constructor
  · decide
  · intro buf h
    unfold readUInt8
    rw [if_pos (by omega)]

theorem c10_witness :
    1 ≤ ([0x40] : List Nat).length ∧ readUInt8 [0x40] 0 = .ok 0x40 :=
  ⟨by decide, c10_empty_buffer_throws.2 [0x40] (by decide)⟩

/-- C2 (code bug): the 3-byte firmware parser of id `0xF2` destructures its
payload as `[minor, patch, major]`, not the little-endian
`[patch, minor, major]` order that its own `3 bytes LE` comment, the `0xF1`
handler, and the upstream BTHome format use; so payload bytes `[1, 2, 3]`
decode to the string `"3.1.2"`, not `"3.2.1"` as the specification states. -/
theorem c2_fw3_swaps_minor_patch :
    decodeBTHome [0x40, 0xf2, 0x01, 0x02, 0x03] =
      .ok ⟨2, false, false, [("firmwareVersionShort", .str "3.1.2")], []⟩ ∧
    ("3.1.2" : String) ≠ "3.2.1" := by
  exact ⟨by decide, by decide⟩

/-- C1 (counterexample): a truncated buffer whose last recognized field's
declared width exceeds the remaining bytes does NOT produce a result:
id `0x02` (temperature) declares 2 bytes but only 1 remains, and
`decodeBTHome` throws a range error instead of returning. -/
theorem c1_counterexample_truncated_field_throws :
    decodeBTHome [0x40, 0x02, 0x01] = .error .rangeError := by decide

/-- C1 (amended): for every input buffer of length at least 1, every error
`decodeBTHome` produces is a buffer range error — the unknown-id path never
throws (such bytes become `unknown` entries), and the spec-table-defect
throw (`specError`, the generic path with no declared width) is unreachable
with the shipped table; but truncated input whose recognized field extends
past the end of the buffer does throw a range error rather than producing a
partial result. -/
theorem c1_amended_only_range_errors (buf : List Nat) (e : DErr)
    (hlen : 1 ≤ buf.length) (h : decodeBTHome buf = .error e) :
    e = .rangeError := by
  unfold decodeBTHome at h
  split at h
  next f hf =>
    injection h with h2
    subst h2
    exact readUInt8_err hf
  next info hinfo =>
    split at h
    next f hf =>
      injection h with h2
      subst h2
      exact decodeFields_err buf.length buf 1 ⟨[], [], []⟩ f (by omega) hf
    next st hst => simp at h

theorem c1_witness :
    1 ≤ ([0x40, 0x02, 0x01] : List Nat).length ∧ DErr.rangeError = DErr.rangeError :=
  ⟨by decide,
    c1_amended_only_range_errors [0x40, 0x02, 0x01] .rangeError (by decide) (by decide)⟩

/-- C4: when the decode loop meets an object id absent from the spec table
it stops immediately, appending exactly one hex-tagged entry covering the id
byte and every byte after it, and leaves the readings it has accumulated
untouched; in particular, an unrecognized id immediately after the header
byte yields empty readings and a singleton unknown list. -/
theorem c4_unknown_id_stops :
    (∀ (fuel : Nat) (buf : List Nat) (offset : Nat) (st : DecodeState),
      offset < buf.length → BTHOME_SPEC (buf.getD offset 0) = none →
      decodeFields (fuel + 1) buf offset st =
        .ok { st with
          ids := st.ids ++ [buf.getD offset 0],
          unknown := st.unknown ++ [unknownEntry buf offset] }) ∧
    (∀ (hdr id : Nat) (rest : List Nat), BTHOME_SPEC id = none →
      decodeBTHome (hdr :: id :: rest) =
        .ok ⟨(hdr >>> 5) &&& 7, (hdr &&& 1) != 0, (hdr &&& 4) != 0, [],
          [unknownEntry (hdr :: id :: rest) 1]⟩) := by
  have loop : ∀ (fuel : Nat) (buf : List Nat) (offset : Nat) (st : DecodeState),
      offset < buf.length → BTHOME_SPEC (buf.getD offset 0) = none →
      decodeFields (fuel + 1) buf offset st =
        .ok { st with
          ids := st.ids ++ [buf.getD offset 0],
          unknown := st.unknown ++ [unknownEntry buf offset] } := by
    intro fuel buf offset st hoff hspec
    rw [decodeFields, if_pos hoff, hspec]
  refine ⟨loop, ?_⟩
  intro hdr id rest hspec
  unfold decodeBTHome
  rw [show readUInt8 (hdr :: id :: rest) 0 = .ok hdr by
    unfold readUInt8; rw [if_pos (by simp)]; rfl]
  rw [show (hdr :: id :: rest).length = rest.length + 1 + 1 by simp]
  rw [loop (rest.length + 1) (hdr :: id :: rest) 1 ⟨[], [], []⟩ (by simp)
    (by simpa using hspec)]
  rfl

theorem c4_witness :
    BTHOME_SPEC 0xee = none ∧
    decodeBTHome [0x40, 0xee, 0x01, 0x02] =
      .ok ⟨2, false, false, [], ["0xee → 0xee0102"]⟩ := by
  refine ⟨by decide, ?_⟩
  have h := c4_unknown_id_stops.2 0x40 0xee [0x01, 0x02] (by decide)
  rw [h]
  decide

theorem readUInt8_cons (x y : Nat) (l : List Nat) (k : Nat) :
    readUInt8 (x :: l) (k + 1) = readUInt8 (y :: l) (k + 1) := by
  unfold readUInt8
  simp [List.getD_cons_succ]

theorem leVal_cons (n : Nat) : ∀ (x y : Nat) (l : List Nat) (k : Nat),
    leVal (x :: l) (k + 1) n = leVal (y :: l) (k + 1) n := by
  induction n with
  | zero => intro x y l k; rfl
  | succ n ih =>
    intro x y l k
    unfold leVal
    rw [List.getD_cons_succ, List.getD_cons_succ, ih x y l (k + 1)]

theorem readUIntLE_cons (x y : Nat) (l : List Nat) (k n : Nat) :
    readUIntLE (x :: l) (k + 1) n = readUIntLE (y :: l) (k + 1) n := by
  unfold readUIntLE
  simp only [List.length_cons]
  rw [leVal_cons n x y l k]

theorem readIntLE_cons (x y : Nat) (l : List Nat) (k n : Nat) :
    readIntLE (x :: l) (k + 1) n = readIntLE (y :: l) (k + 1) n := by
  unfold readIntLE
  rw [readUIntLE_cons x y l k n]

theorem jsSlice_cons (x y : Nat) (l : List Nat) (a b : Nat) :
    jsSlice (x :: l) (a + 1) b = jsSlice (y :: l) (a + 1) b := by
  unfold jsSlice
  rw [List.drop_succ_cons, List.drop_succ_cons]

theorem unknownEntry_cons (x y : Nat) (l : List Nat) (k : Nat) :
    unknownEntry (x :: l) (k + 1) = unknownEntry (y :: l) (k + 1) := by
  unfold unknownEntry
  rw [List.getD_cons_succ, List.getD_cons_succ, List.drop_succ_cons, List.drop_succ_cons]

theorem runParser_cons (t : ParserTag) (x y : Nat) (l : List Nat) (k : Nat) :
    runParser t (x :: l) (k + 1) = runParser t (y :: l) (k + 1) := by
  cases t <;> unfold runParser
  case button => rw [readUInt8_cons x y l k]
  case dimmerEvt => rw [readUInt8_cons x y l k, readUInt8_cons x y l (k + 1)]
  case text =>
    rw [show (x :: l).get? (k + 1) = l.get? k from rfl,
      show (y :: l).get? (k + 1) = l.get? k from rfl]
    cases hg : l.get? k with
    | some len => simp only [hg]; rw [jsSlice_cons x y l (k + 1) (k + 1 + 1 + len)]
    | none => simp only [hg]
  case raw =>
    rw [show (x :: l).get? (k + 1) = l.get? k from rfl,
      show (y :: l).get? (k + 1) = l.get? k from rfl]
    cases hg : l.get? k with
    | some len => simp only [hg]; rw [jsSlice_cons x y l (k + 1) (k + 1 + 1 + len)]
    | none => simp only [hg]
  case timestamp =>
    unfold readUInt32LE
    rw [readUIntLE_cons x y l k 4]
  case fw4 => rw [jsSlice_cons x y l k (k + 1 + 4)]
  case fw3 => rw [jsSlice_cons x y l k (k + 1 + 3)]

theorem stepValue_cons (spec : BTHomeSpecEntry) (x y : Nat) (l : List Nat) (k : Nat) :
    stepValue (x :: l) (k + 1) spec = stepValue (y :: l) (k + 1) spec := by
  unfold stepValue
  cases hp : spec.parser with
  | some t =>
    simp only [hp]
    rw [runParser_cons t x y l k]
    cases hr : runParser t (y :: l) (k + 1) with
    | error f => rfl
    | ok v =>
      simp only []
      cases hb : spec.bytes with
      | some n => rfl
      | none => simp only [hb]; rw [readUInt8_cons x y l k]
  | none =>
    simp only [hp]
    cases hb : spec.bytes with
    | none => rfl
    | some n =>
      simp only [hb]
      rw [readIntLE_cons x y l k n, readUIntLE_cons x y l k n]

theorem decodeFields_cons (fuel : Nat) : ∀ (x y : Nat) (l : List Nat) (k : Nat)
    (st : DecodeState),
    decodeFields fuel (x :: l) (k + 1) st = decodeFields fuel (y :: l) (k + 1) st := by
  induction fuel with
  | zero =>
    intro x y l k st
    rw [decodeFields, decodeFields]
    simp only [List.length_cons]
  | succ fuel ih =>
    intro x y l k st
    rw [decodeFields, decodeFields]
    simp only [List.length_cons]
    by_cases hoff : k + 1 < l.length + 1
    · rw [if_pos hoff, if_pos hoff]
      rw [show (x :: l).getD (k + 1) 0 = l.getD k 0 from List.getD_cons_succ,
        show (y :: l).getD (k + 1) 0 = l.getD k 0 from List.getD_cons_succ]
      cases hspec : BTHOME_SPEC (l.getD k 0) with
      | none =>
        simp only [hspec]
        rw [unknownEntry_cons x y l k]
      | some spec =>
        simp only [hspec]
        rw [stepValue_cons spec x y l (k + 1)]
        cases hsv : stepValue (y :: l) (k + 1 + 1) spec with
        | error f => simp only [hsv]
        | ok p =>
          simp only [hsv]
          obtain ⟨v, next⟩ := p
          have hnext : k + 1 + 1 ≤ next := stepValue_next hsv
          obtain ⟨k2, rfl⟩ : ∃ k2, next = k2 + 1 := ⟨next - 1, by omega⟩
          exact ih x y l k2 _
    · rw [if_neg hoff, if_neg hoff]

/-- C6: for every non-empty buffer, `decodeBTHome` extracts from byte 0 the
version as bits 5–7, the encrypted flag as bit 0 and the trigger flag as
bit 2; and no other header bit affects the result — two header bytes that
agree on bits 0, 2, 5, 6 and 7 produce identical decode results. -/
theorem c6_header_bits :
    (∀ (b : Nat) (rest : List Nat) (r : DecodedBTHome),
      decodeBTHome (b :: rest) = .ok r →
      r.version = b / 2 ^ 5 % 2 ^ 3 ∧ r.encrypted = b.testBit 0 ∧
        r.trigger = b.testBit 2) ∧
    (∀ (b b' : Nat) (rest : List Nat),
      b.testBit 0 = b'.testBit 0 → b.testBit 2 = b'.testBit 2 →
      b.testBit 5 = b'.testBit 5 → b.testBit 6 = b'.testBit 6 →
      b.testBit 7 = b'.testBit 7 →
      decodeBTHome (b :: rest) = decodeBTHome (b' :: rest)) := by
  have hv : ∀ b : Nat, (b >>> 5) &&& 7 = b / 2 ^ 5 % 2 ^ 3 := by
    intro b
    rw [show (7 : Nat) = 2 ^ 3 - 1 from rfl, Nat.and_pow_two_sub_one_eq_mod,
      Nat.shiftRight_eq_div_pow]
  have he : ∀ b : Nat, ((b &&& 1) != 0) = b.testBit 0 := by
    intro b
    rw [Nat.and_one_is_mod, Nat.testBit_to_div_mod]
    rcases Nat.mod_two_eq_zero_or_one b with h | h <;> simp [h]
  have ht : ∀ b : Nat, ((b &&& 4) != 0) = b.testBit 2 := by
    intro b
    rw [show (4 : Nat) = 2 ^ 2 from rfl, Nat.and_two_pow]
    cases h : b.testBit 2 <;> simp
  have hread : ∀ (b : Nat) (rest : List Nat), readUInt8 (b :: rest) 0 = .ok b := by
    intro b rest
    unfold readUInt8
    rw [if_pos (by simp)]
    rfl
  constructor
  · intro b rest r h
    unfold decodeBTHome at h
    rw [hread b rest] at h
    cases hdf : decodeFields (b :: rest).length (b :: rest) 1 ⟨[], [], []⟩ with
    | error f => rw [hdf] at h; simp at h
    | ok st =>
      rw [hdf] at h
      simp only [] at h
      injection h with h2
      subst h2
      exact ⟨hv b, he b, ht b⟩
  · intro b b' rest h0 h2 h5 h6 h7
    rw [Nat.testBit_to_div_mod, Nat.testBit_to_div_mod] at h0 h2 h5 h6 h7
    have i0 := decide_eq_decide.mp h0
    have i2 := decide_eq_decide.mp h2
    have i5 := decide_eq_decide.mp h5
    have i6 := decide_eq_decide.mp h6
    have i7 := decide_eq_decide.mp h7
    have e1 : ((b &&& 1) != 0) = ((b' &&& 1) != 0) := by
      rw [Nat.and_one_is_mod, Nat.and_one_is_mod, show b % 2 = b' % 2 by omega]
    have e2 : ((b &&& 4) != 0) = ((b' &&& 4) != 0) := by
      rw [show (4 : Nat) = 2 ^ 2 from rfl, Nat.and_two_pow, Nat.and_two_pow,
        Nat.testBit_to_div_mod, Nat.testBit_to_div_mod, h2]
    have e3 : (b >>> 5) &&& 7 = (b' >>> 5) &&& 7 := by
      rw [hv b, hv b']
      omega
    unfold decodeBTHome
    rw [hread b rest, hread b' rest]
    simp only [List.length_cons]
    rw [decodeFields_cons (rest.length + 1) b b' rest 0 ⟨[], [], []⟩]
    cases hdf : decodeFields (rest.length + 1) (b' :: rest) 1 ⟨[], [], []⟩ with
    | error f => simp only [hdf]
    | ok st =>
      simp only [hdf]
      rw [e1, e2, e3]

theorem c6_witness :
    (2 : Nat) = 0x45 / 2 ^ 5 % 2 ^ 3 ∧ true = Nat.testBit 0x45 0 ∧
      true = Nat.testBit 0x45 2 :=
  c6_header_bits.1 0x45 [0x01, 0x64] ⟨2, true, true, [("battery", .num 100)], []⟩
    (by decide)

theorem leVal_shift (n : Nat) : ∀ (x : Nat) (l : List Nat) (k : Nat),
    leVal (x :: l) (k + 1) n = leVal l k n := by
  induction n with
  | zero => intro x l k; rfl
  | succ n ih =>
    intro x l k
    unfold leVal
    rw [List.getD_cons_succ, ih x l (k + 1)]

theorem scaleRound_eq_floor (raw : Int) (f : ℚ) (d : Nat) :
    scaleRound raw f d = (⌊(raw : ℚ) * f * 10 ^ d + 1 / 2⌋ : ℚ) / 10 ^ d := by
  unfold scaleRound
  have hdpos : 0 < f.den := f.pos
  have hden : ((f.den : ℚ)) ≠ 0 := by
    exact_mod_cast Nat.pos_iff_ne_zero.mp hdpos
  have hB : ((2 * f.den : ℕ) : ℤ) = 2 * (f.den : ℤ) := by push_cast; ring
  have h1 : (2 * raw * f.num * 10 ^ d + (f.den : ℤ)) / (2 * (f.den : ℤ))
      = ⌊((2 * raw * f.num * 10 ^ d + (f.den : ℤ) : ℤ) : ℚ) / ((2 * f.den : ℕ) : ℚ)⌋ := by
    rw [Rat.floor_intCast_div_natCast, hB]
  have hfn : ((f.num : ℚ)) = f * (f.den : ℚ) := by
    exact (div_eq_iff hden).mp (Rat.num_div_den f)
  have h2 : (((2 * raw * f.num * 10 ^ d + (f.den : ℤ) : ℤ) : ℚ) / ((2 * f.den : ℕ) : ℚ))
      = (raw : ℚ) * f * 10 ^ d + 1 / 2 := by
    push_cast
    field_simp
    rw [hfn]
    ring
  rw [Rat.divInt_eq_div, h1, h2]
  push_cast
  rfl

theorem stepValue_generic {buf : List Nat} {off : Nat} {s : BTHomeSpecEntry} {n : Nat}
    (hp : s.parser = none) (hb : s.bytes = some n)
    (hn1 : 1 ≤ n) (hn6 : n ≤ 6) (hfit : off + n ≤ buf.length) :
    stepValue buf off s =
      .ok (.num (scaleRound
        (if s.signed then toSigned n (leVal buf off n) else (leVal buf off n : Int))
        (s.factor.getD 1) (digitsOfFactor (s.factor.getD 1))), off + n) := by
  unfold stepValue
  simp only [hp, hb]
  have hu : readUIntLE buf off n = .ok (leVal buf off n) := by
    unfold readUIntLE
    rw [if_pos ⟨hn1, hn6, hfit⟩]
  cases hs : s.signed with
  | true =>
    simp only [if_true]
    rw [show readIntLE buf off n = .ok (toSigned n (leVal buf off n)) by
      unfold readIntLE; rw [hu]; rfl]
  | false =>
    simp only [Bool.false_eq_true, if_false]
    rw [hu]
    rfl

theorem decodeFields_generic_step {fuel : Nat} {buf : List Nat} {offset : Nat}
    {st : DecodeState} {s : BTHomeSpecEntry} {n : Nat}
    (hoff : offset < buf.length)
    (hspec : BTHOME_SPEC (buf.getD offset 0) = some s)
    (hp : s.parser = none) (hb : s.bytes = some n)
    (hfit : offset + 1 + n ≤ buf.length) :
    decodeFields (fuel + 1) buf offset st =
      decodeFields fuel buf (offset + 1 + n)
        (record st (buf.getD offset 0) s.name (.num (scaleRound
          (if s.signed then toSigned n (leVal buf (offset + 1) n)
           else (leVal buf (offset + 1) n : Int))
          (s.factor.getD 1) (digitsOfFactor (s.factor.getD 1))))) := by
  obtain ⟨n', hb', hn1, hn6⟩ := spec_bytes_of_parser_none hspec hp
  have hnn : n' = n := by
    rw [hb] at hb'
    injection hb' with h2
    exact h2.symm
  subst hnn
  rw [decodeFields, if_pos hoff]
  simp only [hspec]
  rw [stepValue_generic hp hb hn1 hn6 hfit]

/-- C9: two distinct object ids sharing the descriptor name `temperature`
(`0x02` and `0x45`), each occurring once in one buffer, get no `:1`/`:2`
disambiguation — occurrence counting is per id, not per name — so the later
reading silently overwrites the earlier one under the shared key, and the
value decoded from the first field's bytes `a`, `b` is lost from the
result. -/
theorem c9_shared_name_overwrites (hdr a b c d : Nat) :
    decodeBTHome [hdr, 0x02, a, b, 0x45, c, d] =
      .ok ⟨(hdr >>> 5) &&& 7, (hdr &&& 1) != 0, (hdr &&& 4) != 0,
        [("temperature", .num (scaleRound (toSigned 2 (leVal [c, d] 0 2))
          (mkRat 1 10) (digitsOfFactor (mkRat 1 10))))], []⟩ := by
  rfl

/-- C7: for every valid single-field buffer whose descriptor has no custom
parser and declares a fixed width, the decoded reading is the field's bytes
read as a little-endian integer (signed or unsigned per the descriptor),
multiplied by the scale factor and rounded to the decimal precision implied
by the factor: `scaleRound raw f d` is exactly `⌊raw·f·10^d + 1/2⌋ / 10^d`,
with `d = digitsOfFactor f` decimal places (factor 0.01 → 2 places,
factor 1 → integer). -/
theorem c7_generic_numeric_value :
    (∀ (hdr id : Nat) (s : BTHomeSpecEntry) (n : Nat) (payload : List Nat),
      BTHOME_SPEC id = some s → s.parser = none → s.bytes = some n →
      payload.length = n →
      decodeBTHome (hdr :: id :: payload) =
        .ok ⟨(hdr >>> 5) &&& 7, (hdr &&& 1) != 0, (hdr &&& 4) != 0,
          [(s.name, .num (scaleRound
            (if s.signed then toSigned n (leVal payload 0 n)
             else (leVal payload 0 n : Int))
            (s.factor.getD 1) (digitsOfFactor (s.factor.getD 1))))], []⟩) ∧
    (∀ (raw : Int) (f : ℚ) (d : Nat),
      scaleRound raw f d = (⌊(raw : ℚ) * f * 10 ^ d + 1 / 2⌋ : ℚ) / 10 ^ d) := by
  refine ⟨?_, scaleRound_eq_floor⟩
  intro hdr id s n payload hspec hp hb hlen
  unfold decodeBTHome
  rw [show readUInt8 (hdr :: id :: payload) 0 = .ok hdr from by
    unfold readUInt8; rw [if_pos (by simp)]; rfl]
  rw [show (hdr :: id :: payload).length = (n + 1) + 1 by simp [hlen]]
  rw [@decodeFields_generic_step (n + 1) (hdr :: id :: payload) 1 ⟨[], [], []⟩ s n
    (show (1 : Nat) < (hdr :: id :: payload).length by simp)
    (show BTHOME_SPEC ((hdr :: id :: payload).getD 1 0) = some s from hspec) hp hb
    (show 1 + 1 + n ≤ (hdr :: id :: payload).length by simp only [List.length_cons, hlen]; omega)]
  rw [show decodeFields (n + 1) (hdr :: id :: payload) (1 + 1 + n)
      (record ⟨[], [], []⟩ ((hdr :: id :: payload).getD 1 0) s.name
        (.num (scaleRound
          (if s.signed then toSigned n (leVal (hdr :: id :: payload) (1 + 1) n)
           else (leVal (hdr :: id :: payload) (1 + 1) n : Int))
          (s.factor.getD 1) (digitsOfFactor (s.factor.getD 1))))) =
      .ok (record ⟨[], [], []⟩ ((hdr :: id :: payload).getD 1 0) s.name
        (.num (scaleRound
          (if s.signed then toSigned n (leVal (hdr :: id :: payload) (1 + 1) n)
           else (leVal (hdr :: id :: payload) (1 + 1) n : Int))
          (s.factor.getD 1) (digitsOfFactor (s.factor.getD 1))))) from by
    rw [decodeFields, if_neg (by simp only [List.length_cons, hlen]; omega)]]
  rw [show leVal (hdr :: id :: payload) (1 + 1) n = leVal payload 0 n from by
    rw [show (1 + 1 : Nat) = 0 + 1 + 1 from rfl, leVal_shift n hdr (id :: payload) (0 + 1),
      leVal_shift n id payload 0]]
  simp only [record, jsSet, jsHas, List.nil_append, List.count_cons, List.count_nil,
    List.getD_cons_succ, List.getD_cons_zero, beq_self_eq_true, if_true]
  simp

theorem c7_witness :
    decodeBTHome [0x40, 0x02, 0xce, 0xff] =
      .ok ⟨2, false, false, [("temperature", .num (mkRat (-1) 2))], []⟩ ∧
    decodeBTHome [0x40, 0x01, 0x64] =
      .ok ⟨2, false, false, [("battery", .num 100)], []⟩ := by
  constructor
  · have h := c7_generic_numeric_value.1 0x40 0x02
      ⟨"temperature", some 2, true, some (mkRat 1 100), none⟩ 2 [0xce, 0xff]
      (by decide) rfl rfl (by decide)
    rw [h]
    decide
  · have h := c7_generic_numeric_value.1 0x40 0x01
      ⟨"battery", some 1, false, some 1, none⟩ 1 [0x64]
      (by decide) rfl rfl (by decide)
    rw [h]
    decide

/-- C8: when the Shelly TLV loop meets a block-type byte other than `0x01`,
`0x0b` or `0x0a`, it stops parsing immediately: no byte after that
block-type byte is interpreted and the fields accumulated from the blocks
before it are returned unchanged. -/
theorem c8_unknown_block_stops (fuel : Nat) (bytes : List Nat) (offset : Nat)
    (r : ShellyManufacturerData) (hoff : offset < bytes.length)
    (h1 : bytes.getD offset 0 ≠ 0x01) (hb : bytes.getD offset 0 ≠ 0x0b)
    (ha : bytes.getD offset 0 ≠ 0x0a) :
    shellyLoop (fuel + 1) bytes offset r = .ok r := by
  simp only [shellyLoop]
  rw [if_pos hoff, if_neg h1, if_neg hb, if_neg ha]

theorem shellyLoop_total : ∀ (fuel : Nat) (bytes : List Nat) (offset : Nat)
    (r : ShellyManufacturerData), bytes.length - offset ≤ fuel →
    (∃ r', shellyLoop fuel bytes offset r = .ok r') ∨
      shellyLoop fuel bytes offset r = .error .rangeError := by
  intro fuel
  induction fuel with
  | zero =>
    intro bytes offset r hle
    rw [shellyLoop, if_neg (by omega)]
    exact .inl ⟨r, rfl⟩
  | succ fuel ih =>
    intro bytes offset r hle
    by_cases hoff : offset < bytes.length
    · simp only [shellyLoop]
      rw [if_pos hoff]
      by_cases ht1 : bytes.getD offset 0 = 0x01
      · rw [if_pos ht1]
        cases hr : readUInt16LE bytes (offset + 1) with
        | error f =>
          simp only [hr]
          rw [readUIntLE_err hr]
          exact .inr rfl
        | ok flagsRaw =>
          simp only [hr]
          exact ih bytes (offset + 3) _ (by omega)
      · rw [if_neg ht1]
        by_cases htb : bytes.getD offset 0 = 0x0b
        · rw [if_pos htb]
          cases hr : readUInt16LE bytes (offset + 1) with
          | error f =>
            simp only [hr]
            rw [readUIntLE_err hr]
            exact .inr rfl
          | ok modelId =>
            simp only [hr]
            exact ih bytes (offset + 3) _ (by omega)
        · rw [if_neg htb]
          by_cases hta : bytes.getD offset 0 = 0x0a
          · rw [if_pos hta]
            exact ih bytes (offset + 7) _ (by omega)
          · rw [if_neg hta]
            exact .inl ⟨r, rfl⟩
    · rw [shellyLoop, if_neg hoff]
      exact .inl ⟨r, rfl⟩

/-- C5 (amended): `decodeShellyManufacturerData` returns `null` exactly when
the input's `length` property is below 10 — bytes for a buffer, characters
(before whitespace stripping and hex decoding) for a hex string — or when
the first two decoded bytes read as little-endian `uint16` differ from
`0x0BA9`; for a buffer input passing both checks it returns a non-null
result unless a `0x01` or `0x0b` block's 2-byte payload extends past the end
of the buffer, in which case it throws a range error. -/
theorem c5_amended :
    (∀ input : ShellyInput,
      decodeShellyManufacturerData input = .ok none ↔
        (inputLength input < 10 ∨
          ∃ c, readUInt16LE (shellyBytes input) 0 = .ok c ∧ c ≠ 0x0ba9)) ∧
    (∀ bytes : List Nat, 10 ≤ bytes.length →
      readUInt16LE bytes 0 = .ok 0x0ba9 →
      (∃ r, decodeShellyManufacturerData (.buffer bytes) = .ok (some r)) ∨
        decodeShellyManufacturerData (.buffer bytes) = .error .rangeError) := by
  constructor
  · intro input
    constructor
    · intro h
      by_cases hlen : inputLength input < 10
      · exact .inl hlen
      · right
        unfold decodeShellyManufacturerData at h
        rw [if_neg hlen] at h
        cases hr : readUInt16LE (shellyBytes input) 0 with
        | error f => simp only [hr] at h; simp at h
        | ok c =>
          simp only [hr] at h
          by_cases hc : c = 0x0ba9
          · rw [if_neg (by simp [hc])] at h
            cases hl : shellyLoop (shellyBytes input).length (shellyBytes input) 2
                { companyId := c } with
            | error f => simp only [hl] at h; simp at h
            | ok r => simp only [hl] at h; simp at h
          · exact ⟨c, rfl, hc⟩
    · intro hcase
      by_cases hlen : inputLength input < 10
      · unfold decodeShellyManufacturerData
        rw [if_pos hlen]
      · rcases hcase with hl | ⟨c, hr, hc⟩
        · exact absurd hl hlen
        · unfold decodeShellyManufacturerData
          rw [if_neg hlen]
          simp only [hr]
          rw [if_pos hc]
  · intro bytes hlen hr
    unfold decodeShellyManufacturerData
    rw [if_neg (by simp only [inputLength]; omega)]
    simp only [shellyBytes, hr]
    rw [if_neg (by simp)]
    rcases shellyLoop_total bytes.length bytes 2 { companyId := 0x0ba9 } (by omega)
      with ⟨r2, hl⟩ | hl
    · simp only [hl]
      exact .inl ⟨r2, rfl⟩
    · simp only [hl]
      exact .inr (by simp)

theorem c8_witness :
    (0 : Nat) < ([0xff] : List Nat).length ∧
    shellyLoop 1 [0xff] 0 { companyId := 0x0ba9 } = .ok { companyId := 0x0ba9 } :=
  ⟨by decide,
    c8_unknown_block_stops 0 [0xff] 0 { companyId := 0x0ba9 } (by decide) (by decide)
      (by decide) (by decide)⟩

/-- C5 (counterexample): a 10-byte buffer with the correct company id whose
trailing `0x01` flags block is truncated makes
`decodeShellyManufacturerData` throw a range error instead of returning;
and a 10-character hex string holding only 5 bytes (fewer than 10) passes
the character-counting length check and returns a non-null result. -/
theorem c5_counterexample_throws_and_counts_chars :
    decodeShellyManufacturerData (.buffer [0xa9, 0x0b, 0x0a, 0, 0, 0, 0, 0, 0, 0x01]) =
      .error .rangeError ∧
    decodeShellyManufacturerData (.hexString "a90b010000") =
      .ok (some {
        companyId := 0x0ba9,
        flags := some ⟨false, false, false, false, false⟩ }) ∧
    (shellyBytes (.hexString "a90b010000")).length = 5 := by
  refine ⟨by decide, by decide, by decide⟩

theorem c5_witness :
    10 ≤ ([0xa9, 0x0b, 0x01, 0x03, 0x00, 0x0b, 0x05, 0x00, 0x00, 0x00] : List Nat).length ∧
    ((∃ r, decodeShellyManufacturerData
        (.buffer [0xa9, 0x0b, 0x01, 0x03, 0x00, 0x0b, 0x05, 0x00, 0x00, 0x00]) =
          .ok (some r)) ∨
      decodeShellyManufacturerData
        (.buffer [0xa9, 0x0b, 0x01, 0x03, 0x00, 0x0b, 0x05, 0x00, 0x00, 0x00]) =
          .error .rangeError) :=
  ⟨by decide,
    c5_amended.2 [0xa9, 0x0b, 0x01, 0x03, 0x00, 0x0b, 0x05, 0x00, 0x00, 0x00]
      (by decide) (by decide)⟩

theorem parserBytesOk_all : ∀ p ∈ BTHOME_SPEC_LIST, parserBytesOk p.2 = true := by
  decide

theorem getD_drop (buf : List Nat) (off i d : Nat) :
    (buf.drop off).getD i d = buf.getD (off + i) d := by
  simp [List.getD_eq_getElem?_getD, List.getElem?_drop]

theorem leVal_drop (n : Nat) : ∀ (buf : List Nat) (off i : Nat),
    leVal buf (off + i) n = leVal (buf.drop off) i n := by
  induction n with
  | zero => intro buf off i; rfl
  | succ n ih =>
    intro buf off i
    unfold leVal
    rw [getD_drop, ← ih buf off (i + 1)]
    rfl

theorem leVal_prefix (n : Nat) : ∀ (l r : List Nat) (i : Nat), i + n ≤ l.length →
    leVal (l ++ r) i n = leVal l i n := by
  induction n with
  | zero => intro l r i h; rfl
  | succ n ih =>
    intro l r i h
    unfold leVal
    rw [List.getD_append _ _ _ _ (by omega), ih l r (i + 1) (by omega)]

theorem length_of_drop_eq {buf payload rest : List Nat} {off : Nat}
    (hoff : off ≤ buf.length) (hdrop : buf.drop off = payload ++ rest) :
    buf.length = off + payload.length + rest.length := by
  have h := congrArg List.length hdrop
  rw [List.length_drop, List.length_append] at h
  omega

theorem readUInt8_shift {payload : List Nat} {i u : Nat}
    (h : readUInt8 payload i = .ok u)
    {buf rest : List Nat} {off : Nat} (hoff : off ≤ buf.length)
    (hdrop : buf.drop off = payload ++ rest) :
    readUInt8 buf (off + i) = .ok u := by
  unfold readUInt8 at h ⊢
  split at h
  case isFalse => simp at h
  case isTrue hlt =>
    injection h with h2
    rw [if_pos (by have := length_of_drop_eq hoff hdrop; omega)]
    rw [show buf.getD (off + i) 0 = (buf.drop off).getD i 0 from (getD_drop buf off i 0).symm,
      hdrop, List.getD_append _ _ _ _ (by omega), h2]

theorem readUIntLE_shift {payload : List Nat} {n u : Nat}
    (h : readUIntLE payload 0 n = .ok u)
    {buf rest : List Nat} {off : Nat} (hoff : off ≤ buf.length)
    (hdrop : buf.drop off = payload ++ rest) :
    readUIntLE buf off n = .ok u := by
  unfold readUIntLE at h ⊢
  split at h
  case isFalse => simp at h
  case isTrue hc =>
    injection h with h2
    rw [if_pos (by have := length_of_drop_eq hoff hdrop; omega)]
    rw [show leVal buf off n = leVal (buf.drop off) 0 n by
        have := leVal_drop n buf off 0
        simpa using this,
      hdrop, leVal_prefix n payload rest 0 (by omega), h2]

theorem readIntLE_shift {payload : List Nat} {n : Nat} {z : Int}
    (h : readIntLE payload 0 n = .ok z)
    {buf rest : List Nat} {off : Nat} (hoff : off ≤ buf.length)
    (hdrop : buf.drop off = payload ++ rest) :
    readIntLE buf off n = .ok z := by
  unfold readIntLE at h ⊢
  cases hu : readUIntLE payload 0 n with
  | error f => rw [hu] at h; simp [Except.map] at h
  | ok u =>
    rw [hu] at h
    simp only [Except.map] at h
    injection h with h2
    rw [readUIntLE_shift hu hoff hdrop]
    simp only [Except.map, h2]

theorem get?_shift {payload : List Nat} {i u : Nat}
    (h : payload.get? i = some u)
    {buf rest : List Nat} {off : Nat}
    (hdrop : buf.drop off = payload ++ rest) :
    buf.get? (off + i) = some u := by
  have hi : i < payload.length := by
    by_contra hcon
    rw [List.get?_eq_getElem?, List.getElem?_eq_none (by omega)] at h
    simp at h
  rw [List.get?_eq_getElem?] at h ⊢
  rw [show buf[off + i]? = (buf.drop off)[i]? from (List.getElem?_drop buf off i).symm,
    hdrop, List.getElem?_append_left hi, h]

theorem jsSlice_shift (buf : List Nat) (off a b : Nat) :
    jsSlice buf (off + a) (off + b) = jsSlice (buf.drop off) a b := by
  unfold jsSlice
  rw [List.drop_drop, show off + b - (off + a) = b - a from by omega]

theorem jsSlice_exact (payload rest : List Nat) (a m : Nat)
    (h : a + m = payload.length) :
    jsSlice (payload ++ rest) a (a + m) = payload.drop a := by
  unfold jsSlice
  rw [List.drop_append_of_le_length (by omega)]
  rw [show a + m - a = m from by omega]
  rw [List.take_left' (by rw [List.length_drop]; omega)]

theorem jsSlice_shift0 (buf : List Nat) (off b : Nat) :
    jsSlice buf off (off + b) = jsSlice (buf.drop off) 0 b := by
  have h := jsSlice_shift buf off 0 b
  simpa using h

theorem stepValue_shift {s : BTHomeSpecEntry} {payload : List Nat} {v : BTValue}
    (hpb : parserBytesOk s = true)
    (hsv : stepValue payload 0 s = .ok (v, payload.length))
    {buf rest : List Nat} {off : Nat} (hoff : off ≤ buf.length)
    (hdrop : buf.drop off = payload ++ rest) :
    stepValue buf off s = .ok (v, off + payload.length) := by
  unfold parserBytesOk at hpb
  unfold stepValue at hsv ⊢
  cases hp : s.parser with
  | none =>
    simp only [hp] at hsv ⊢
    cases hb : s.bytes with
    | none => simp only [hb] at hsv; exact absurd hsv (by simp)
    | some n =>
      simp only [hb] at hsv ⊢
      cases hs : s.signed with
      | true =>
        simp only [hs, if_true] at hsv ⊢
        cases hr : readIntLE payload 0 n with
        | error f => simp only [hr] at hsv; exact absurd hsv (by simp)
        | ok raw =>
          simp only [hr] at hsv
          injection hsv with h2
          have hv : BTValue.num (scaleRound raw (s.factor.getD 1)
              (digitsOfFactor (s.factor.getD 1))) = v := congrArg Prod.fst h2
          have hlen : 0 + n = payload.length := congrArg Prod.snd h2
          have hre : readIntLE buf off n = .ok raw := readIntLE_shift hr hoff hdrop
          simp only [hre]
          rw [hv, show off + n = off + payload.length from by omega]
      | false =>
        simp only [hs, Bool.false_eq_true, if_false] at hsv ⊢
        cases hr : readUIntLE payload 0 n with
        | error f => simp only [hr, Except.map] at hsv; exact absurd hsv (by simp)
        | ok u =>
          simp only [hr, Except.map] at hsv
          injection hsv with h2
          have hv := congrArg Prod.fst h2
          have hlen : 0 + n = payload.length := congrArg Prod.snd h2
          have hre : readUIntLE buf off n = .ok u := readUIntLE_shift hr hoff hdrop
          simp only [hre, Except.map]
          rw [show off + n = off + payload.length from by omega]
          exact congrArg (fun w => Except.ok (w, off + payload.length)) hv
  | some t =>
    rw [hp] at hpb
    cases t
    case button =>
      have hb : s.bytes = some 1 := eq_of_beq hpb
      simp only [hp, hb] at hsv ⊢
      unfold runParser at hsv ⊢
      cases hu : readUInt8 payload 0 with
      | error f => simp only [hu, Except.map] at hsv; exact absurd hsv (by simp)
      | ok code =>
        simp only [hu, Except.map] at hsv
        injection hsv with h2
        have hv : BTValue.str (buttonEventName code) = v := congrArg Prod.fst h2
        have hlen : (0 : Nat) + 1 = payload.length := congrArg Prod.snd h2
        have hre : readUInt8 buf off = .ok code := readUInt8_shift hu hoff hdrop
        simp only [hre, Except.map]
        rw [hv, show off + 1 = off + payload.length from by omega]
    case dimmerEvt =>
      have hb : s.bytes = some 2 := eq_of_beq hpb
      simp only [hp, hb] at hsv ⊢
      unfold runParser at hsv ⊢
      cases hu : readUInt8 payload 0 with
      | error f => simp only [hu] at hsv; exact absurd hsv (by simp)
      | ok evt =>
        simp only [hu] at hsv
        cases hu2 : readUInt8 payload (0 + 1) with
        | error f => simp only [hu2] at hsv; exact absurd hsv (by simp)
        | ok steps =>
          simp only [hu2] at hsv
          injection hsv with h2
          have hv : BTValue.dimmer (dimmerEventName evt) steps = v := congrArg Prod.fst h2
          have hlen : (0 : Nat) + 2 = payload.length := congrArg Prod.snd h2
          have hre : readUInt8 buf off = .ok evt := readUInt8_shift hu hoff hdrop
          have hre2 : readUInt8 buf (off + 1) = .ok steps := readUInt8_shift hu2 hoff hdrop
          simp only [hre, hre2]
          rw [hv, show off + 2 = off + payload.length from by omega]
    case text =>
      have hb : s.bytes = none := eq_of_beq hpb
      simp only [hp, hb] at hsv ⊢
      unfold runParser at hsv ⊢
      cases hu : readUInt8 payload 0 with
      | error f =>
        cases hg : payload.get? 0 <;> simp only [hg, hu] at hsv <;>
          exact absurd hsv (by simp)
      | ok len =>
        have hg : payload.get? 0 = some len := by
          unfold readUInt8 at hu
          split at hu
          case isFalse => simp at hu
          case isTrue hlt =>
            injection hu with h2
            rw [List.get?_eq_getElem?, List.getElem?_eq_getElem (by omega)]
            rw [← h2]
            congr 1
            exact (List.getD_eq_getElem _ _ (by omega)).symm
        simp only [hg, hu] at hsv
        injection hsv with h2
        have hv : BTValue.str (utf8Decode (jsSlice payload (0 + 1) (0 + 1 + len))) = v :=
          congrArg Prod.fst h2
        have hlen : 0 + 1 + len = payload.length := congrArg Prod.snd h2
        have hge : buf.get? (off + 0) = some len := get?_shift hg hdrop
        have hge' : buf.get? off = some len := by simpa using hge
        have hue : readUInt8 buf off = .ok len := readUInt8_shift hu hoff hdrop
        simp only [hge', hue]
        have hslice : jsSlice buf (off + 1) (off + 1 + len) =
            jsSlice payload (0 + 1) (0 + 1 + len) := by
          show jsSlice buf (off + 1) (off + 1 + len) = jsSlice payload 1 (1 + len)
          rw [show off + 1 + len = off + (1 + len) from by omega,
            jsSlice_shift buf off 1 (1 + len), hdrop]
          unfold jsSlice
          rw [List.drop_append_of_le_length (by omega),
            List.take_append_of_le_length (by rw [List.length_drop]; omega)]
        rw [hslice, hv, show off + 1 + len = off + payload.length from by omega]
    case raw =>
      have hb : s.bytes = none := eq_of_beq hpb
      simp only [hp, hb] at hsv ⊢
      unfold runParser at hsv ⊢
      cases hu : readUInt8 payload 0 with
      | error f =>
        cases hg : payload.get? 0 <;> simp only [hg, hu] at hsv <;>
          exact absurd hsv (by simp)
      | ok len =>
        have hg : payload.get? 0 = some len := by
          unfold readUInt8 at hu
          split at hu
          case isFalse => simp at hu
          case isTrue hlt =>
            injection hu with h2
            rw [List.get?_eq_getElem?, List.getElem?_eq_getElem (by omega)]
            rw [← h2]
            congr 1
            exact (List.getD_eq_getElem _ _ (by omega)).symm
        simp only [hg, hu] at hsv
        injection hsv with h2
        have hv : BTValue.str (bufHex (jsSlice payload (0 + 1) (0 + 1 + len))) = v :=
          congrArg Prod.fst h2
        have hlen : 0 + 1 + len = payload.length := congrArg Prod.snd h2
        have hge : buf.get? (off + 0) = some len := get?_shift hg hdrop
        have hge' : buf.get? off = some len := by simpa using hge
        have hue : readUInt8 buf off = .ok len := readUInt8_shift hu hoff hdrop
        simp only [hge', hue]
        have hslice : jsSlice buf (off + 1) (off + 1 + len) =
            jsSlice payload (0 + 1) (0 + 1 + len) := by
          show jsSlice buf (off + 1) (off + 1 + len) = jsSlice payload 1 (1 + len)
          rw [show off + 1 + len = off + (1 + len) from by omega,
            jsSlice_shift buf off 1 (1 + len), hdrop]
          unfold jsSlice
          rw [List.drop_append_of_le_length (by omega),
            List.take_append_of_le_length (by rw [List.length_drop]; omega)]
        rw [hslice, hv, show off + 1 + len = off + payload.length from by omega]
    case timestamp =>
      have hb : s.bytes = some 4 := eq_of_beq hpb
      simp only [hp, hb] at hsv ⊢
      unfold runParser at hsv ⊢
      unfold readUInt32LE at hsv ⊢
      cases hu : readUIntLE payload 0 4 with
      | error f => simp only [hu, Except.map] at hsv; exact absurd hsv (by simp)
      | ok secs =>
        simp only [hu, Except.map] at hsv
        injection hsv with h2
        have hv : BTValue.str (isoString secs) = v := congrArg Prod.fst h2
        have hlen : (0 : Nat) + 4 = payload.length := congrArg Prod.snd h2
        have hre : readUIntLE buf off 4 = .ok secs := readUIntLE_shift hu hoff hdrop
        simp only [hre, Except.map]
        rw [hv, show off + 4 = off + payload.length from by omega]
    case fw4 =>
      have hb : s.bytes = some 4 := eq_of_beq hpb
      simp only [hp, hb] at hsv ⊢
      unfold runParser at hsv ⊢
      injection hsv with h2
      have hv := congrArg Prod.fst h2
      have hlen : (0 : Nat) + 4 = payload.length := congrArg Prod.snd h2
      have hslice : jsSlice buf off (off + 4) = jsSlice payload 0 (0 + 4) := by
        rw [jsSlice_shift0 buf off 4, hdrop]
        unfold jsSlice
        simp only [Nat.sub_zero, List.drop_zero]
        rw [List.take_append_of_le_length (by omega)]
      rw [hslice]
      rw [show off + 4 = off + payload.length from by omega]
      exact congrArg (fun w => Except.ok (w, off + payload.length)) hv
    case fw3 =>
      have hb : s.bytes = some 3 := eq_of_beq hpb
      simp only [hp, hb] at hsv ⊢
      unfold runParser at hsv ⊢
      injection hsv with h2
      have hv := congrArg Prod.fst h2
      have hlen : (0 : Nat) + 3 = payload.length := congrArg Prod.snd h2
      have hslice : jsSlice buf off (off + 3) = jsSlice payload 0 (0 + 3) := by
        rw [jsSlice_shift0 buf off 3, hdrop]
        unfold jsSlice
        simp only [Nat.sub_zero, List.drop_zero]
        rw [List.take_append_of_le_length (by omega)]
      rw [hslice]
      rw [show off + 3 = off + payload.length from by omega]
      exact congrArg (fun w => Except.ok (w, off + payload.length)) hv

theorem recordAll_append (l1 l2 : List (Chunk × BTHomeSpecEntry × BTValue)) :
    ∀ st, recordAll st (l1 ++ l2) = recordAll (recordAll st l1) l2 := by
  induction l1 with
  | nil => intro st; rfl
  | cons t rest ih => intro st; exact ih (record st t.1.id t.2.1.name t.2.2)

theorem record_ids (st : DecodeState) (id : Nat) (n : String) (v : BTValue) :
    (record st id n v).ids = st.ids ++ [id] := by
  unfold record
  split
  case isTrue _ => rfl
  case isFalse _ => rfl

theorem recordAll_ids (l : List (Chunk × BTHomeSpecEntry × BTValue)) :
    ∀ st, (recordAll st l).ids = st.ids ++ l.map (fun t => t.1.id) := by
  induction l with
  | nil => intro st; simp [recordAll]
  | cons t rest ih =>
    intro st
    rw [show recordAll st (t :: rest) =
        recordAll (record st t.1.id t.2.1.name t.2.2) rest from rfl,
      ih, record_ids]
    simp

theorem encFields_length (cs : List Chunk) :
    cs.length ≤ (encFields cs).length := by
  induction cs with
  | nil => simp [encFields]
  | cons c rest ih =>
    simp only [encFields, encChunk, List.length_append, List.length_cons]
    omega

theorem decodeFields_triples :
    ∀ (l : List (Chunk × BTHomeSpecEntry × BTValue)) (buf : List Nat)
      (off fuel : Nat) (st : DecodeState),
    (∀ t ∈ l, BTHOME_SPEC t.1.id = some t.2.1 ∧ parserBytesOk t.2.1 = true ∧
      stepValue t.1.payload 0 t.2.1 = .ok (t.2.2, t.1.payload.length)) →
    off ≤ buf.length → buf.drop off = encFields (l.map Prod.fst) →
    l.length ≤ fuel →
    decodeFields fuel buf off st = .ok (recordAll st l) := by
  intro l
  induction l with
  | nil =>
    intro buf off fuel st _ hoff hdrop _
    have hlen : buf.length = off := by
      have h := congrArg List.length hdrop
      rw [List.length_drop] at h
      simp [encFields] at h
      omega
    match fuel with
    | 0 =>
      unfold decodeFields
      rw [if_neg (by omega)]
      rfl
    | fu + 1 =>
      unfold decodeFields
      rw [if_neg (by omega)]
      rfl
  | cons t rest ih =>
    intro buf off fuel st hwf hoff hdrop hfuel
    obtain ⟨c, s, v⟩ := t
    simp only [List.map_cons] at hdrop
    rw [show encFields (c :: rest.map Prod.fst) =
        c.id :: (c.payload ++ encFields (rest.map Prod.fst)) from rfl] at hdrop
    obtain ⟨hsp, hpb, hsv⟩ := hwf ⟨c, s, v⟩ (List.mem_cons_self _ _)
    have hlen : buf.length - off =
        c.payload.length + (encFields (rest.map Prod.fst)).length + 1 := by
      have h := congrArg List.length hdrop
      rw [List.length_drop] at h
      simp only [List.length_cons, List.length_append] at h
      omega
    have hlt : off < buf.length := by omega
    match fuel with
    | 0 => simp at hfuel
    | fu + 1 =>
      unfold decodeFields
      rw [if_pos hlt]
      have hid : buf.getD off 0 = c.id := by
        have h := (getD_drop buf off 0 0).symm
        rw [hdrop] at h
        simpa using h
      simp only [hid, hsp]
      have hdrop1 : buf.drop (off + 1) =
          c.payload ++ encFields (rest.map Prod.fst) := by
        have h2 := congrArg (List.drop 1) hdrop
        rw [List.drop_drop] at h2
        simpa using h2
      have hsv2 := stepValue_shift hpb hsv
        (show off + 1 ≤ buf.length from by omega) hdrop1
      simp only [hsv2]
      have hdrop2 : buf.drop (off + 1 + c.payload.length) =
          encFields (rest.map Prod.fst) := by
        have h3 := congrArg (List.drop c.payload.length) hdrop1
        rw [List.drop_drop, List.drop_left] at h3
        exact h3
      exact ih buf (off + 1 + c.payload.length) fu (record st c.id s.name v)
        (fun u hu => hwf u (List.mem_cons_of_mem _ hu))
        (by omega) hdrop2 (by simp at hfuel; omega)

theorem jsGet_cons (p : String × BTValue) (m : List (String × BTValue))
    (k : String) :
    jsGet (p :: m) k = if p.1 == k then some p.2 else jsGet m k := by
  cases h : (p.1 == k) with
  | true => simp [jsGet, List.find?_cons_of_pos, h]
  | false => simp [jsGet, List.find?_cons_of_neg, h]

theorem jsGet_append (m1 m2 : List (String × BTValue)) (k : String) :
    jsGet (m1 ++ m2) k = ((jsGet m1 k).or (jsGet m2 k)) := by
  unfold jsGet
  rw [List.find?_append]
  cases List.find? (fun p => p.1 == k) m1 <;> simp

theorem jsGet_eq_none_of_not_has (m : List (String × BTValue)) (k : String)
    (h : jsHas m k = false) : jsGet m k = none := by
  unfold jsGet
  rw [List.find?_eq_none.mpr]
  · rfl
  · intro x hx
    have := List.any_eq_false.mp h x hx
    simpa using this

theorem jsGet_map_set (m : List (String × BTValue)) (kk : String) (v : BTValue)
    (k : String) (h : k ≠ kk) :
    jsGet (m.map (fun p => if p.1 == kk then (kk, v) else p)) k = jsGet m k := by
  induction m with
  | nil => rfl
  | cons p m ih =>
    simp only [List.map_cons]
    by_cases hp : p.1 = kk
    · rw [show ((if p.1 == kk then (kk, v) else p) : String × BTValue) = (kk, v)
        from by simp [hp]]
      rw [jsGet_cons, jsGet_cons]
      rw [if_neg (by simpa using Ne.symm h), if_neg (by simp [hp]; exact Ne.symm h)]
      exact ih
    · rw [show ((if p.1 == kk then (kk, v) else p) : String × BTValue) = p
        from by simp [hp]]
      rw [jsGet_cons, jsGet_cons]
      cases hpk : (p.1 == k) with
      | true => rfl
      | false => simpa using ih

theorem jsGet_jsSet_ne (m : List (String × BTValue)) (kk : String) (v : BTValue)
    (k : String) (h : k ≠ kk) : jsGet (jsSet m kk v) k = jsGet m k := by
  unfold jsSet
  by_cases hh : jsHas m kk
  · rw [if_pos hh]
    exact jsGet_map_set m kk v k h
  · rw [if_neg hh, jsGet_append]
    rw [show jsGet [(kk, v)] k = none from by
      rw [jsGet_cons, if_neg (by simpa using Ne.symm h)]; rfl]
    cases jsGet m k <;> simp

theorem jsGet_map_set_self (m : List (String × BTValue)) (k : String)
    (v : BTValue) (hh : jsHas m k = true) :
    jsGet (m.map (fun p => if p.1 == k then (k, v) else p)) k = some v := by
  induction m with
  | nil => simp [jsHas] at hh
  | cons p m ih =>
    simp only [List.map_cons]
    by_cases hp : p.1 = k
    · rw [show ((if p.1 == k then (k, v) else p) : String × BTValue) = (k, v)
        from by simp [hp]]
      rw [jsGet_cons, if_pos (by simp)]
    · rw [show ((if p.1 == k then (k, v) else p) : String × BTValue) = p
        from by simp [hp]]
      rw [jsGet_cons, if_neg (by simpa using hp)]
      refine ih ?_
      unfold jsHas at hh ⊢
      rw [List.any_cons] at hh
      rcases Bool.or_eq_true_iff.mp hh with h1 | h2
      · exact absurd (by simpa using h1) hp
      · exact h2

theorem jsGet_jsSet_self (m : List (String × BTValue)) (k : String)
    (v : BTValue) : jsGet (jsSet m k v) k = some v := by
  unfold jsSet
  by_cases hh : jsHas m k
  · rw [if_pos hh]
    exact jsGet_map_set_self m k v hh
  · rw [if_neg hh, jsGet_append,
      jsGet_eq_none_of_not_has m k (by simpa using hh)]
    rw [jsGet_cons, if_pos (by simp)]
    rfl

theorem jsGet_jsDel_ne (m : List (String × BTValue)) (kk k : String)
    (h : k ≠ kk) : jsGet (jsDel m kk) k = jsGet m k := by
  induction m with
  | nil => rfl
  | cons p m ih =>
    unfold jsDel
    rw [List.filter_cons]
    by_cases hp : p.1 = kk
    · rw [if_neg (by simp [hp])]
      rw [show List.filter (fun p => !(p.1 == kk)) m = jsDel m kk from rfl, ih,
        jsGet_cons, if_neg (by simp [hp]; exact Ne.symm h)]
    · rw [if_pos (by simpa using hp)]
      rw [jsGet_cons, jsGet_cons,
        show List.filter (fun p => !(p.1 == kk)) m = jsDel m kk from rfl, ih]

theorem jsGet_jsDel_self (m : List (String × BTValue)) (k : String) :
    jsGet (jsDel m k) k = none := by
  induction m with
  | nil => rfl
  | cons p m ih =>
    unfold jsDel
    rw [List.filter_cons]
    by_cases hp : p.1 = k
    · rw [if_neg (by simp [hp])]
      exact ih
    · rw [if_pos (by simpa using hp),
        jsGet_cons, if_neg (by simpa using hp)]
      exact ih

theorem colonFree_not_mem {a : String} (h : colonFree a = true) :
    ':' ∉ a.data := of_decide_eq_true h

theorem colon_split : ∀ (a x b y : List Char), ':' ∉ a → ':' ∉ b →
    a ++ ':' :: x = b ++ ':' :: y → a = b ∧ x = y := by
  intro a
  induction a with
  | nil =>
    intro x b y _ hb h
    cases b with
    | nil => simpa using h
    | cons d bs =>
      simp only [List.nil_append, List.cons_append, List.cons.injEq] at h
      obtain ⟨e1, _⟩ := h
      rw [← e1] at hb
      exact absurd (List.mem_cons_self _ _) hb
  | cons c as ih =>
    intro x b y ha hb h
    cases b with
    | nil =>
      simp only [List.cons_append, List.nil_append, List.cons.injEq] at h
      obtain ⟨e1, _⟩ := h
      rw [e1] at ha
      exact absurd (List.mem_cons_self _ _) ha
    | cons d bs =>
      simp only [List.cons_append, List.cons.injEq] at h
      obtain ⟨e1, e2⟩ := h
      have ha2 : ':' ∉ as := fun hm => ha (List.mem_cons_of_mem _ hm)
      have hb2 : ':' ∉ bs := fun hm => hb (List.mem_cons_of_mem _ hm)
      obtain ⟨e3, e4⟩ := ih x bs y ha2 hb2 e2
      exact ⟨by rw [e1, e3], e4⟩

theorem string_ext {a b : String} (h : a.data = b.data) : a = b := by
  cases a
  cases b
  exact congrArg String.mk h

theorem data_append (a b : String) : (a ++ b).data = a.data ++ b.data := by
  cases a
  cases b
  rfl

theorem append_colon1 (a : String) :
    a ++ ":1" = String.mk (a.data ++ ':' :: ['1']) := by
  apply string_ext
  rw [data_append]

theorem append_colon2 (a : String) :
    a ++ ":2" = String.mk (a.data ++ ':' :: ['2']) := by
  apply string_ext
  rw [data_append]

theorem append_colon_mid (a t : String) :
    a ++ ":" ++ t = String.mk (a.data ++ ':' :: t.data) := by
  apply string_ext
  rw [data_append, data_append]
  rw [show (":" : String).data = [':'] from by decide]
  simp

theorem colon_mid_two (a : String) : a ++ ":" ++ "2" = a ++ ":2" := by
  rw [append_colon_mid, append_colon2]

theorem ne_of_colonFree_mem {a c : String} (ha : colonFree a = true)
    (hc : ':' ∈ c.data) : a ≠ c := by
  intro e
  rw [e] at ha
  exact absurd hc (colonFree_not_mem ha)

theorem mem_colon1 (b : String) : ':' ∈ (b ++ ":1").data := by
  rw [data_append]
  exact List.mem_append.mpr (Or.inr (by decide))

theorem mem_colon2 (b : String) : ':' ∈ (b ++ ":2").data := by
  rw [data_append]
  exact List.mem_append.mpr (Or.inr (by decide))

theorem mem_colon_mid (b t : String) : ':' ∈ (b ++ ":" ++ t).data := by
  rw [data_append, data_append]
  exact List.mem_append.mpr (Or.inl (List.mem_append.mpr (Or.inr (by decide))))

theorem colon_append_ne {a n : String} (ha : colonFree a = true)
    (hn : colonFree n = true) (hne : a ≠ n) (x y : List Char) :
    String.mk (a.data ++ ':' :: x) ≠ String.mk (n.data ++ ':' :: y) := by
  intro e
  obtain ⟨e1, _⟩ := colon_split a.data x n.data y
    (colonFree_not_mem ha) (colonFree_not_mem hn) (congrArg String.data e)
  exact hne (string_ext e1)

theorem colon1_colon1_ne {a n : String} (ha : colonFree a = true)
    (hn : colonFree n = true) (hne : a ≠ n) : a ++ ":1" ≠ n ++ ":1" := by
  rw [append_colon1, append_colon1]
  exact colon_append_ne ha hn hne _ _

theorem colon1_colonMid_ne {a n : String} (ha : colonFree a = true)
    (hn : colonFree n = true) (hne : a ≠ n) (u : String) :
    a ++ ":1" ≠ n ++ ":" ++ u := by
  rw [append_colon1, append_colon_mid]
  exact colon_append_ne ha hn hne _ _

theorem colon2_colon1_ne {a n : String} (ha : colonFree a = true)
    (hn : colonFree n = true) (hne : a ≠ n) : a ++ ":2" ≠ n ++ ":1" := by
  rw [append_colon2, append_colon1]
  exact colon_append_ne ha hn hne _ _

theorem colon2_colonMid_ne {a n : String} (ha : colonFree a = true)
    (hn : colonFree n = true) (hne : a ≠ n) (u : String) :
    a ++ ":2" ≠ n ++ ":" ++ u := by
  rw [append_colon2, append_colon_mid]
  exact colon_append_ne ha hn hne _ _

theorem colon1_ne_colon2 {a : String} (ha : colonFree a = true) :
    a ++ ":1" ≠ a ++ ":2" := by
  rw [append_colon1, append_colon2]
  intro e
  obtain ⟨_, e2⟩ := colon_split a.data ['1'] a.data ['2']
    (colonFree_not_mem ha) (colonFree_not_mem ha) (congrArg String.data e)
  simp at e2

theorem jsGet_record_other (st : DecodeState) (id : Nat) (n : String)
    (v : BTValue) (k : String) (hk1 : k ≠ n) (hk2 : k ≠ n ++ ":1")
    (hk3 : ∀ t, k ≠ n ++ ":" ++ t) :
    jsGet (record st id n v).readings k = jsGet st.readings k := by
  unfold record
  split
  case isTrue _ =>
    show jsGet (jsSet
      (match jsGet st.readings n with
       | some old => jsDel (jsSet st.readings (n ++ ":1") old) n
       | none => st.readings)
      (n ++ ":" ++ toString ((st.ids ++ [id]).count id)) v) k =
      jsGet st.readings k
    rw [jsGet_jsSet_ne _ _ _ _ (hk3 _)]
    cases hg : jsGet st.readings n with
    | none => rfl
    | some old =>
      show jsGet (jsDel (jsSet st.readings (n ++ ":1") old) n) k =
        jsGet st.readings k
      rw [jsGet_jsDel_ne _ _ _ hk1, jsGet_jsSet_ne _ _ _ _ hk2]
  case isFalse _ =>
    show jsGet (jsSet st.readings n v) k = jsGet st.readings k
    rw [jsGet_jsSet_ne _ _ _ _ hk1]

theorem jsGet_recordAll_other (k : String) :
    ∀ (l : List (Chunk × BTHomeSpecEntry × BTValue)),
    (∀ t ∈ l, k ≠ t.2.1.name ∧ k ≠ t.2.1.name ++ ":1" ∧
      ∀ u, k ≠ t.2.1.name ++ ":" ++ u) →
    ∀ st, jsGet (recordAll st l).readings k = jsGet st.readings k := by
  intro l
  induction l with
  | nil => intro _ st; rfl
  | cons t rest ih =>
    intro h st
    obtain ⟨hx1, hx2, hx3⟩ := h t (List.mem_cons_self _ _)
    rw [show recordAll st (t :: rest) =
      recordAll (record st t.1.id t.2.1.name t.2.2) rest from rfl]
    rw [ih (fun u hu => h u (List.mem_cons_of_mem _ hu)) _]
    exact jsGet_record_other _ _ _ _ _ hx1 hx2 hx3

/-- C3: corrected form.  In a buffer made of a header byte and well-formed
fields in which object id `i` occurs exactly twice, decodeBTHome stores the
first occurrence's independently decoded value under `name:1`, the second
under `name:2`, and removes the plain `name` key — provided the other
fields' key names differ from this descriptor's name (the original claim
omits this proviso, and it is essential: a different id that shares the
name, such as 0x45 alongside 0x02, overwrites the first occurrence's value
before the retroactive rename copies it). -/
theorem c3_amended (hb i : Nat) (s : BTHomeSpecEntry) (p1 p2 : List Nat)
    (v1 v2 : BTValue) (pre mid post : List (Chunk × BTHomeSpecEntry × BTValue))
    (hs : BTHOME_SPEC i = some s) (hpb : parserBytesOk s = true)
    (h1 : stepValue p1 0 s = .ok (v1, p1.length))
    (h2 : stepValue p2 0 s = .ok (v2, p2.length))
    (hwf : ∀ t ∈ pre ++ mid ++ post,
      BTHOME_SPEC t.1.id = some t.2.1 ∧ parserBytesOk t.2.1 = true ∧
      stepValue t.1.payload 0 t.2.1 = .ok (t.2.2, t.1.payload.length))
    (hid : ∀ t ∈ pre ++ mid ++ post, t.1.id ≠ i)
    (hname : ∀ t ∈ pre ++ mid ++ post, t.2.1.name ≠ s.name)
    (hcf : ∀ t ∈ pre ++ mid ++ post, colonFree t.2.1.name = true)
    (hscf : colonFree s.name = true) :
    ∃ d, decodeBTHome (hb :: encFields
        ((pre ++ (⟨i, p1⟩, s, v1) :: (mid ++ (⟨i, p2⟩, s, v2) :: post)).map
          Prod.fst)) = .ok d ∧
      jsGet d.readings (s.name ++ ":1") = some v1 ∧
      jsGet d.readings (s.name ++ ":2") = some v2 ∧
      jsGet d.readings s.name = none := by
  set l := pre ++ (⟨i, p1⟩, s, v1) :: (mid ++ (⟨i, p2⟩, s, v2) :: post) with hl
  have hmemP : ∀ t ∈ pre, t ∈ pre ++ mid ++ post :=
    fun t ht => List.mem_append.mpr (Or.inl (List.mem_append.mpr (Or.inl ht)))
  have hmemM : ∀ t ∈ mid, t ∈ pre ++ mid ++ post :=
    fun t ht => List.mem_append.mpr (Or.inl (List.mem_append.mpr (Or.inr ht)))
  have hmemQ : ∀ t ∈ post, t ∈ pre ++ mid ++ post :=
    fun t ht => List.mem_append.mpr (Or.inr ht)
  have hmem : ∀ t ∈ l, t ∈ pre ++ mid ++ post ∨
      t = (⟨i, p1⟩, s, v1) ∨ t = (⟨i, p2⟩, s, v2) := by
    intro t ht
    rw [hl] at ht
    simp only [List.mem_append, List.mem_cons] at ht ⊢
    tauto
  have hwf2 : ∀ t ∈ l, BTHOME_SPEC t.1.id = some t.2.1 ∧
      parserBytesOk t.2.1 = true ∧
      stepValue t.1.payload 0 t.2.1 = .ok (t.2.2, t.1.payload.length) := by
    intro t ht
    rcases hmem t ht with h | h | h
    · exact hwf t h
    · rw [h]; exact ⟨hs, hpb, h1⟩
    · rw [h]; exact ⟨hs, hpb, h2⟩
  set buf := hb :: encFields (l.map Prod.fst) with hbuf
  have hread : readUInt8 buf 0 = .ok hb := by
    unfold readUInt8
    rw [if_pos (by rw [hbuf]; simp)]
    rw [hbuf]
    rfl
  have hfuel : l.length ≤ buf.length := by
    have h := encFields_length (l.map Prod.fst)
    rw [hbuf]
    simp only [List.length_cons, List.length_map] at h ⊢
    omega
  have hdf : decodeFields buf.length buf 1 (⟨[], [], []⟩ : DecodeState) =
      .ok (recordAll (⟨[], [], []⟩ : DecodeState) l) :=
    decodeFields_triples l buf 1 buf.length ⟨[], [], []⟩ hwf2
      (by rw [hbuf]; simp) (by rw [hbuf]; rfl) hfuel
  set st1 := recordAll (⟨[], [], []⟩ : DecodeState) pre with hst1
  set st2 := record st1 i s.name v1 with hst2
  set st3 := recordAll st2 mid with hst3
  set st4 := record st3 i s.name v2 with hst4
  have hsplit : recordAll (⟨[], [], []⟩ : DecodeState) l =
      recordAll st4 post := by
    rw [hl, recordAll_append]
    show recordAll (record st1 i s.name v1)
      (mid ++ ((⟨i, p2⟩, s, v2) :: post)) = recordAll st4 post
    rw [recordAll_append]
    rfl
  have hcount1 : st1.ids.count i = 0 := by
    rw [hst1, recordAll_ids]
    show (List.map (fun t => t.1.id) pre).count i = 0
    rw [List.count_eq_zero]
    intro hm
    obtain ⟨t, ht, hti⟩ := List.mem_map.mp hm
    exact hid t (hmemP t ht) hti
  have hcount3 : st3.ids.count i = 1 := by
    rw [hst3, recordAll_ids, hst2, record_ids, List.count_append,
      List.count_append, hcount1]
    have hz : (mid.map (fun t => t.1.id)).count i = 0 := by
      rw [List.count_eq_zero]
      intro hm
      obtain ⟨t, ht, hti⟩ := List.mem_map.mp hm
      exact hid t (hmemM t ht) hti
    rw [hz]
    simp
  have hread2 : st2.readings = jsSet st1.readings s.name v1 := by
    rw [hst2]
    unfold record
    rw [if_neg (by rw [List.count_append, hcount1]; simp)]
  have htripMid : ∀ t ∈ mid, s.name ≠ t.2.1.name ∧
      s.name ≠ t.2.1.name ++ ":1" ∧
      ∀ u, s.name ≠ t.2.1.name ++ ":" ++ u := by
    intro t ht
    exact ⟨Ne.symm (hname t (hmemM t ht)),
      ne_of_colonFree_mem hscf (mem_colon1 _),
      fun u => ne_of_colonFree_mem hscf (mem_colon_mid _ u)⟩
  have hget3 : jsGet st3.readings s.name = some v1 := by
    rw [hst3, jsGet_recordAll_other s.name mid htripMid st2, hread2]
    exact jsGet_jsSet_self _ _ _
  have hcnt2 : (st3.ids ++ [i]).count i = 2 := by
    rw [List.count_append, hcount3]
    simp
  have hread4 : st4.readings =
      jsSet (jsDel (jsSet st3.readings (s.name ++ ":1") v1) s.name)
        (s.name ++ ":2") v2 := by
    rw [hst4]
    unfold record
    rw [if_pos (by rw [hcnt2]; omega)]
    show jsSet
      (match jsGet st3.readings s.name with
       | some old => jsDel (jsSet st3.readings (s.name ++ ":1") old) s.name
       | none => st3.readings)
      (s.name ++ ":" ++ toString ((st3.ids ++ [i]).count i)) v2 =
      jsSet (jsDel (jsSet st3.readings (s.name ++ ":1") v1) s.name)
        (s.name ++ ":2") v2
    rw [hcnt2, show toString (2 : Nat) = "2" from by decide, colon_mid_two]
    simp only [hget3]
  have htripQ0 : ∀ t ∈ post, s.name ≠ t.2.1.name ∧
      s.name ≠ t.2.1.name ++ ":1" ∧
      ∀ u, s.name ≠ t.2.1.name ++ ":" ++ u := by
    intro t ht
    exact ⟨Ne.symm (hname t (hmemQ t ht)),
      ne_of_colonFree_mem hscf (mem_colon1 _),
      fun u => ne_of_colonFree_mem hscf (mem_colon_mid _ u)⟩
  have htripQ1 : ∀ t ∈ post, s.name ++ ":1" ≠ t.2.1.name ∧
      s.name ++ ":1" ≠ t.2.1.name ++ ":1" ∧
      ∀ u, s.name ++ ":1" ≠ t.2.1.name ++ ":" ++ u := by
    intro t ht
    exact ⟨Ne.symm (ne_of_colonFree_mem (hcf t (hmemQ t ht)) (mem_colon1 _)),
      colon1_colon1_ne hscf (hcf t (hmemQ t ht)) (Ne.symm (hname t (hmemQ t ht))),
      fun u => colon1_colonMid_ne hscf (hcf t (hmemQ t ht))
        (Ne.symm (hname t (hmemQ t ht))) u⟩
  have htripQ2 : ∀ t ∈ post, s.name ++ ":2" ≠ t.2.1.name ∧
      s.name ++ ":2" ≠ t.2.1.name ++ ":1" ∧
      ∀ u, s.name ++ ":2" ≠ t.2.1.name ++ ":" ++ u := by
    intro t ht
    exact ⟨Ne.symm (ne_of_colonFree_mem (hcf t (hmemQ t ht)) (mem_colon2 _)),
      colon2_colon1_ne hscf (hcf t (hmemQ t ht)) (Ne.symm (hname t (hmemQ t ht))),
      fun u => colon2_colonMid_ne hscf (hcf t (hmemQ t ht))
        (Ne.symm (hname t (hmemQ t ht))) u⟩
  refine ⟨{ version := (hb >>> 5) &&& 7, encrypted := (hb &&& 1) != 0,
            trigger := (hb &&& 4) != 0,
            readings := (recordAll (⟨[], [], []⟩ : DecodeState) l).readings,
            unknown := (recordAll (⟨[], [], []⟩ : DecodeState) l).unknown },
    ?_, ?_, ?_, ?_⟩
  · unfold decodeBTHome
    simp only [hread, hdf]
  · show jsGet (recordAll (⟨[], [], []⟩ : DecodeState) l).readings
      (s.name ++ ":1") = some v1
    rw [hsplit, jsGet_recordAll_other _ post htripQ1 st4, hread4,
      jsGet_jsSet_ne _ _ _ _ (colon1_ne_colon2 hscf),
      jsGet_jsDel_ne _ _ _
        (Ne.symm (ne_of_colonFree_mem hscf (mem_colon1 _)))]
    exact jsGet_jsSet_self _ _ _
  · show jsGet (recordAll (⟨[], [], []⟩ : DecodeState) l).readings
      (s.name ++ ":2") = some v2
    rw [hsplit, jsGet_recordAll_other _ post htripQ2 st4, hread4]
    exact jsGet_jsSet_self _ _ _
  · show jsGet (recordAll (⟨[], [], []⟩ : DecodeState) l).readings
      s.name = none
    rw [hsplit, jsGet_recordAll_other _ post htripQ0 st4, hread4,
      jsGet_jsSet_ne _ _ _ _ (ne_of_colonFree_mem hscf (mem_colon2 _))]
    exact jsGet_jsDel_self _ _

/-- C3: counterexample.  In the buffer `40 02 01 00 45 02 00 02 03 00`,
object id `0x02` occurs exactly twice, and the value decoded independently
from the first occurrence's own bytes (`01 00`) is 0.01; yet the decoder's
`temperature:1` key ends up holding 0.2, the value of the intervening
`0x45` field, because `0x45` shares the key name `temperature` and its
plain-key write is the one the retroactive rename copies.  So the claim
that each disambiguated key holds the value decoded from its own
occurrence's bytes fails. -/
theorem c3_counterexample_shared_name_clobbers_first :
    (decodeBTHome [0x40, 0x02, 0x01, 0x00, 0x45, 0x02, 0x00,
        0x02, 0x03, 0x00]).map (fun d => d.readings) =
      .ok [("temperature:1", BTValue.num (mkRat 1 5)),
        ("temperature:2", BTValue.num (mkRat 3 100))] ∧
    stepValue [0x01, 0x00] 0
      ⟨"temperature", some 2, true, some (mkRat 1 100), none⟩ =
      .ok (BTValue.num (mkRat 1 100), 2) ∧
    BTValue.num (mkRat 1 5) ≠ BTValue.num (mkRat 1 100) := by
  decide

theorem c3_witness :
    ∃ d, decodeBTHome (0x40 :: encFields
        (([] ++ ((⟨0x02, [0x01, 0x00]⟩ : Chunk),
            (⟨"temperature", some 2, true, some (mkRat 1 100), none⟩ :
              BTHomeSpecEntry),
            BTValue.num (mkRat 1 100)) ::
          ([((⟨0x01, [0x64]⟩ : Chunk),
              (⟨"battery", some 1, false, some 1, none⟩ : BTHomeSpecEntry),
              BTValue.num 100)] ++
            ((⟨0x02, [0x03, 0x00]⟩ : Chunk),
              (⟨"temperature", some 2, true, some (mkRat 1 100), none⟩ :
                BTHomeSpecEntry),
              BTValue.num (mkRat 3 100)) :: [])).map Prod.fst)) = .ok d ∧
      jsGet d.readings ("temperature" ++ ":1") =
        some (BTValue.num (mkRat 1 100)) ∧
      jsGet d.readings ("temperature" ++ ":2") =
        some (BTValue.num (mkRat 3 100)) ∧
      jsGet d.readings "temperature" = none :=
  c3_amended 0x40 0x02
    ⟨"temperature", some 2, true, some (mkRat 1 100), none⟩
    [0x01, 0x00] [0x03, 0x00]
    (BTValue.num (mkRat 1 100)) (BTValue.num (mkRat 3 100))
    []
    [((⟨0x01, [0x64]⟩ : Chunk),
      (⟨"battery", some 1, false, some 1, none⟩ : BTHomeSpecEntry),
      BTValue.num 100)]
    []
    (by decide) (by decide) (by decide) (by decide)
    (by decide) (by decide) (by decide) (by decide) (by decide)
